import Mathlib

/-!
# Snake game core: a shallow embedding

The definitions below transcribe `src/game/Snake.js`, `src/game/Food.js`,
`src/game/Grid.js` and the simulation / interpolation part of
`src/game/Game.js`.  Grid coordinates are integers (`Int`); plane
coordinates and times are exact rationals (`ℚ`) standing for the
JavaScript numbers.  A JavaScript `TypeError` is modelled by `none`.
-/

namespace SnakeGame

/-! ## Snake.js -/

/-- A grid cell or a direction vector: the objects `{ x, y }` of `Snake.js`. -/
structure Cell where
  x : Int
  y : Int
  deriving DecidableEq, Repr

/-- Component-wise negation, as in the tests `dir.x === -lastDir.x && dir.y === -lastDir.y`. -/
def Cell.neg (c : Cell) : Cell := ⟨-c.x, -c.y⟩

/-- The four unit axis vectors the input layer produces. -/
def Cell.isUnitAxis (c : Cell) : Prop :=
  c = ⟨1, 0⟩ ∨ c = ⟨-1, 0⟩ ∨ c = ⟨0, 1⟩ ∨ c = ⟨0, -1⟩

instance (c : Cell) : Decidable c.isUnitAxis := by
  unfold Cell.isUnitAxis; infer_instance

/-- The fields of the class `Snake`. -/
structure Snake where
  gridSize : Int
  segments : List Cell
  direction : Cell
  nextDirection : Cell
  growing : Bool
  directionQueue : List Cell
  deriving DecidableEq, Repr

/-- `Snake.reset` (run by the constructor): `mid = Math.floor(gridSize / 2)`. -/
def Snake.reset (gridSize : Int) : Snake :=
  let mid := gridSize / 2
  { gridSize := gridSize
    segments := [⟨mid, mid⟩, ⟨mid - 1, mid⟩, ⟨mid - 2, mid⟩, ⟨mid - 3, mid⟩, ⟨mid - 4, mid⟩]
    direction := ⟨1, 0⟩
    nextDirection := ⟨1, 0⟩
    growing := false
    directionQueue := [] }

/-- The getter `head`: `segments[0]`, `undefined` on an empty array. -/
def Snake.head (s : Snake) : Option Cell := s.segments.head?

/-- `Snake.queueDirection(dir)`. -/
def Snake.queueDirection (s : Snake) (dir : Cell) : Snake :=
  let queue := s.directionQueue
  let lastDir := if queue.length > 0 then queue.getLast?.getD s.direction else s.direction
  if dir.x = -lastDir.x ∧ dir.y = -lastDir.y then s
  else if dir.x = lastDir.x ∧ dir.y = lastDir.y then s
  else if queue.length < 3 then { s with directionQueue := queue ++ [dir] }
  else s

/-- Lines 37-42 of `Snake.update`: shift the queue and adopt the shifted
direction unless it is the exact reverse of the current one. -/
def Snake.adoptQueued (s : Snake) : Snake :=
  match s.directionQueue with
  | [] => s
  | next :: rest =>
    if ¬ (next.x = -s.direction.x ∧ next.y = -s.direction.y) then
      { s with directionQueue := rest, direction := next }
    else
      { s with directionQueue := rest }

/-- Lines 49-54 of `Snake.update` on one coordinate: the two sequential tests
`if (v < 0) v = gridSize - 1; if (v >= gridSize) v = 0;`. -/
def wrapCoord (gridSize v : Int) : Int :=
  let v1 := if v < 0 then gridSize - 1 else v
  if v1 ≥ gridSize then 0 else v1

/-- `Snake.update(walls)`.  Reading `this.head.x` on an empty segment array
throws, which is `none` here. -/
def Snake.update (s : Snake) (walls : Bool) : Option Snake :=
  let s1 := s.adoptQueued
  match s1.head with
  | none => none
  | some head =>
    let newHead : Cell := ⟨head.x + s1.direction.x, head.y + s1.direction.y⟩
    let newHead : Cell :=
      if !walls then ⟨wrapCoord s1.gridSize newHead.x, wrapCoord s1.gridSize newHead.y⟩
      else newHead
    let segs := newHead :: s1.segments
    let segs := if !s1.growing then segs.dropLast else segs
    some { s1 with segments := segs, growing := false }

/-- `Snake.grow()`. -/
def Snake.grow (s : Snake) : Snake := { s with growing := true }

/-- `Snake.checkSelfCollision()`: `segments.slice(1).some(...)`.  On an empty
array the slice is empty and the callback, the only reader of `this.head`, never
runs. -/
def Snake.checkSelfCollision (s : Snake) : Bool :=
  match s.segments with
  | [] => false
  | head :: tail => tail.any (fun seg => seg.x = head.x ∧ seg.y = head.y)

/-- `Snake.checkWallCollision()`; `none` on an empty segment array. -/
def Snake.checkWallCollision (s : Snake) : Option Bool :=
  match s.head with
  | none => none
  | some head =>
    some (decide (head.x < 0) || decide (head.x ≥ s.gridSize) ||
      decide (head.y < 0) || decide (head.y ≥ s.gridSize))

/-- `Snake.occupies(x, y)`. -/
def Snake.occupies (s : Snake) (x y : Int) : Bool :=
  s.segments.any (fun seg => seg.x = x ∧ seg.y = y)

/-- Snake state validity: at least one segment, every segment inside the
grid, no cell occupied twice. -/
def Snake.Valid (s : Snake) : Prop :=
  s.segments ≠ [] ∧
  (∀ c ∈ s.segments, 0 ≤ c.x ∧ c.x < s.gridSize ∧ 0 ≤ c.y ∧ c.y < s.gridSize) ∧
  s.segments.Nodup

instance (s : Snake) : Decidable s.Valid := by
  unfold Snake.Valid; infer_instance

/-! ## Food.js -/

/-- The fields of the class `Food`. -/
structure Food where
  gridSize : Int
  position : Cell
  pulsePhase : ℚ
  spawnAnimation : ℚ
  deriving DecidableEq

/-- The constructor of `Food`. -/
def Food.new (gridSize : Int) : Food :=
  { gridSize := gridSize, position := ⟨0, 0⟩, pulsePhase := 0, spawnAnimation := 0 }

/-- The `do ... while` loop of `Food.spawn`.  `draws k` is the cell produced by
the `k`-th evaluation (counted from 0) of the pair of `Math.random()` calls;
`attempts` is the loop counter; the result is the final `pos` and the final
`attempts`.  The first argument bounds the recursion: started at `1000` with
`attempts = 0` it is never exhausted, because the loop test fails once
`attempts` reaches `1000`. -/
def Food.spawnLoop (snake : Snake) (draws : Nat → Cell) : Nat → Nat → Cell × Nat
  | 0, attempts => (draws attempts, attempts + 1)
  | fuel + 1, attempts =>
    let pos := draws attempts
    let attempts := attempts + 1
    if snake.occupies pos.x pos.y && decide (attempts < 1000) then
      Food.spawnLoop snake draws fuel attempts
    else (pos, attempts)

/-- `Food.spawn(snake)`, given the random cells `draws`. -/
def Food.spawn (f : Food) (snake : Snake) (draws : Nat → Cell) : Food :=
  { f with position := (Food.spawnLoop snake draws 1000 0).1, spawnAnimation := 1 }

/-- Number of random cells `Food.spawn(snake)` consumes. -/
def Food.spawnDraws (snake : Snake) (draws : Nat → Cell) : Nat :=
  (Food.spawnLoop snake draws 1000 0).2

/-- `Food.update(dt)`. -/
def Food.update (f : Food) (dt : ℚ) : Food :=
  let f1 := { f with pulsePhase := f.pulsePhase + dt * 3 }
  if f1.spawnAnimation > 0 then
    { f1 with spawnAnimation := max 0 (f1.spawnAnimation - dt * 4) }
  else f1

/-- `Food.isAt(x, y)`. -/
def Food.isAt (f : Food) (x y : Int) : Bool :=
  decide (f.position.x = x) && decide (f.position.y = y)

/-! ## Grid.js -/

/-- A point of the plane: the objects `{ x, y }` of `Game.js`. -/
structure Point where
  x : ℚ
  y : ℚ
  deriving DecidableEq

/-- The fields of the class `Grid`. -/
structure Grid where
  gridSize : Int
  cellSize : ℚ
  offset : Point
  deriving DecidableEq

/-- `Grid.cellCenter(gridX, gridY)`. -/
def Grid.cellCenter (g : Grid) (gridX gridY : Int) : Point :=
  { x := g.offset.x + gridX * g.cellSize + g.cellSize / 2
    y := g.offset.y + gridY * g.cellSize + g.cellSize / 2 }

/-! ## Game.js: interpolation and segmentation -/

/-- `Game.easeInOutQuad(t)`. -/
def easeInOutQuad (t : ℚ) : ℚ :=
  if t < 0.5 then 2 * t * t else 1 - 2 * (1 - t) * (1 - t)

/-- The body of the `for` loop of `Game.computeDisplayPoints` at index `i` with
`c = curr[i]`: the display point written at index `i`. -/
def displayPoint (prev : List Point) (t maxJump : ℚ) (i : Nat) (c : Point) : Point :=
  let p := if i < prev.length then prev.getD i c else c
  let dx := c.x - p.x
  let dy := c.y - p.y
  if |dx| > maxJump ∨ |dy| > maxJump then { x := c.x, y := c.y }
  else { x := p.x + dx * t, y := p.y + dy * t }

/-- `Game.computeDisplayPoints()` as a function of `snapshotPrev`,
`snapshotCurr`, `lerpProgress` and `cellSize`: the content of
`displayPoints` afterwards (every entry of the array, whether reused or newly
allocated, is overwritten). -/
def computeDisplayPoints (prev curr : List Point) (lerpProgress cellSize : ℚ) : List Point :=
  let t := easeInOutQuad lerpProgress
  let maxJump := cellSize * 2
  curr.enum.map (fun ic => displayPoint prev t maxJump ic.1 ic.2)

/-- One iteration of the `for` loop of `splitIntoContinuousChunks` on the pair
`(chunks, current)`; `current.getLast?` is `none` exactly when
`current.length === 0`. -/
def splitStep (maxDist : ℚ) (st : List (List Point) × List Point) (pt : Point) :
    List (List Point) × List Point :=
  match st.2.getLast? with
  | none => (st.1, st.2 ++ [pt])
  | some prev =>
    let dx := pt.x - prev.x
    let dy := pt.y - prev.y
    if dx * dx + dy * dy > maxDist * maxDist then (st.1 ++ [st.2], [pt])
    else (st.1, st.2 ++ [pt])

/-- `Game.splitIntoContinuousChunks(points)` for the given `cellSize`. -/
def splitIntoContinuousChunks (cellSize : ℚ) (points : List Point) : List (List Point) :=
  let maxDist := cellSize * 1.8
  let st := points.foldl (splitStep maxDist) ([], [])
  if st.2.length > 0 then st.1 ++ [st.2] else st.1

/-- Squared Euclidean distance `dx * dx + dy * dy` between two points. -/
def sqDist (a b : Point) : ℚ :=
  (b.x - a.x) * (b.x - a.x) + (b.y - a.y) * (b.y - a.y)

/-- Two points whose squared distance is at most `m * m`. -/
def Near (m : ℚ) (a b : Point) : Prop := sqDist a b ≤ m * m

/-- A chunk boundary: the last point of `c1` and the first point of `c2` exist
and their squared distance exceeds `m * m`. -/
def Apart (m : ℚ) (c1 c2 : List Point) : Prop :=
  ∃ a b, c1.getLast? = some a ∧ c2.head? = some b ∧ m * m < sqDist a b

/-- Invariant of the loop of `splitIntoContinuousChunks` on `(chunks, current)`:
finished chunks are non-empty, every chunk and `current` are runs of near
points, and consecutive chunks (`current` included) are apart. -/
def SplitInv (m : ℚ) (st : List (List Point) × List Point) : Prop :=
  (∀ c ∈ st.1, c ≠ []) ∧
  (∀ c ∈ st.1, List.Chain' (Near m) c) ∧
  List.Chain' (Near m) st.2 ∧
  List.Chain' (Apart m) st.1 ∧
  (∀ x, st.1.getLast? = some x → Apart m x st.2)

/-! ## Game.js: simulation -/

/-- The values of `Game.state`. -/
inductive GameState where
  | home
  | playing
  | paused
  | gameover
  deriving DecidableEq, Repr

/-- The fields of `Game` read or written by the simulation: rendering context,
particles, screen shake and DOM state are left out.  `drawn` counts the random
cells consumed so far by `Food.spawn`. -/
structure Game where
  walls : Bool
  gridSize : Int
  state : GameState
  score : Int
  highscore : Int
  snake : Snake
  food : Food
  grid : Grid
  cellSize : ℚ
  lastUpdate : ℚ
  accumulator : ℚ
  moveInterval : ℚ
  lerpProgress : ℚ
  snapshotPrev : List Point
  snapshotCurr : List Point
  displayPoints : List Point
  drawn : Nat
  deriving DecidableEq

/-- `Game.takeSnapshot()`. -/
def Game.takeSnapshot (g : Game) : List Point :=
  g.snake.segments.map (fun s => g.grid.cellCenter s.x s.y)

/-- `Game.gameOver()`: the state and high-score updates. -/
def Game.gameOver (g : Game) : Game :=
  let g1 := { g with state := GameState.gameover }
  if g1.score > g1.highscore then { g1 with highscore := g1.score } else g1

/-- `Game.tick()`; `draws` is the sequence of random cells, of which the first
`g.drawn` are already consumed. -/
def Game.tick (draws : Nat → Cell) (g : Game) : Option Game :=
  match g.snake.update g.walls with
  | none => none
  | some snake =>
    let g1 := { g with snake := snake }
    match snake.checkWallCollision, snake.head with
    | some hitWall, some head =>
      if g1.walls && hitWall then some g1.gameOver
      else if snake.checkSelfCollision then some g1.gameOver
      else if g1.food.isAt head.x head.y then
        let grown := snake.grow
        let rest := fun k => draws (g1.drawn + k)
        some { g1 with
          snake := grown
          score := g1.score + 10
          food := g1.food.spawn grown rest
          drawn := g1.drawn + Food.spawnDraws grown rest }
      else some g1
    | _, _ => none

/-- The inner loop `while (snapshotPrev.length < snapshotCurr.length)` of
`Game.loop`, bounded by the number of missing entries.  Copying the last entry
of an empty array yields an object without coordinates, which has no
counterpart in `Point`: `none`. -/
def padSnapshot (currLen : Nat) : Nat → List Point → Option (List Point)
  | 0, prev => some prev
  | fuel + 1, prev =>
    if prev.length < currLen then
      match prev.getLast? with
      | none => none
      | some last => padSnapshot currLen fuel (prev ++ [last])
    else some prev

/-- The loop `while (accumulator >= moveInterval)` of `Game.loop`, with at most
`fuel` iterations; `none` when the fuel runs out or a step throws. -/
def Game.runTicks (draws : Nat → Cell) : Nat → Game → Option Game
  | 0, g => if g.accumulator ≥ g.moveInterval then none else some g
  | fuel + 1, g =>
    if g.accumulator ≥ g.moveInterval then
      let g1 := { g with
        accumulator := g.accumulator - g.moveInterval
        snapshotPrev := g.snapshotCurr }
      match g1.tick draws with
      | none => none
      | some g2 =>
        let curr := g2.takeSnapshot
        match padSnapshot curr.length (curr.length - g2.snapshotPrev.length) g2.snapshotPrev with
        | none => none
        | some prev =>
          Game.runTicks draws fuel
            { g2 with snapshotCurr := curr, snapshotPrev := prev, lerpProgress := 0 }
    else some g

/-- `Game.loop(timestamp)` once the loop is running, up to the call of
`draw()`. -/
def Game.loop (draws : Nat → Cell) (fuel : Nat) (timestamp : ℚ) (g : Game) : Option Game :=
  let dt := min ((timestamp - g.lastUpdate) / 1000) 0.1
  let g1 := { g with lastUpdate := timestamp }
  let played : Option Game :=
    if g1.state = GameState.playing then
      match Game.runTicks draws fuel { g1 with accumulator := g1.accumulator + dt * 1000 } with
      | none => none
      | some g2 =>
        let g3 := { g2 with lerpProgress := min (g2.accumulator / g2.moveInterval) 1 }
        some { g3 with
          displayPoints :=
            computeDisplayPoints g3.snapshotPrev g3.snapshotCurr g3.lerpProgress g3.cellSize }
    else some g1
  played.map (fun g4 => { g4 with food := g4.food.update dt })

/-- The body of the loop `while (accumulator >= moveInterval)` of `Game.loop`:
one subtraction, snapshot copy, tick, new snapshot, padding and progress
reset, as in `Game.runTicks`. -/
def Game.tickStep (draws : Nat → Cell) (g : Game) : Option Game :=
  let g1 := { g with
    accumulator := g.accumulator - g.moveInterval
    snapshotPrev := g.snapshotCurr }
  match g1.tick draws with
  | none => none
  | some g2 =>
    let curr := g2.takeSnapshot
    match padSnapshot curr.length (curr.length - g2.snapshotPrev.length) g2.snapshotPrev with
    | none => none
    | some prev => some { g2 with snapshotCurr := curr, snapshotPrev := prev, lerpProgress := 0 }

/-- Number of iterations of the loop `while (accumulator >= moveInterval)`, that
is of calls of `tick()`, in a run of `Game.runTicks`. -/
def Game.countTicks (draws : Nat → Cell) : Nat → Game → Option Nat
  | 0, g => if g.accumulator ≥ g.moveInterval then none else some 0
  | fuel + 1, g =>
    if g.accumulator ≥ g.moveInterval then
      match g.tickStep draws with
      | none => none
      | some g2 => (Game.countTicks draws fuel g2).map (fun n => n + 1)
    else some 0

/-- Number of calls of `tick()` in one call `Game.loop(timestamp)`: none outside
the playing state. -/
def Game.loopTicks (draws : Nat → Cell) (fuel : Nat) (timestamp : ℚ) (g : Game) : Option Nat :=
  let dt := min ((timestamp - g.lastUpdate) / 1000) 0.1
  if g.state = GameState.playing then
    Game.countTicks draws fuel
      { g with lastUpdate := timestamp, accumulator := g.accumulator + dt * 1000 }
  else some 0

/-- A sequence of frames: `Game.loop` is called once per frame delta `d`, with
timestamp `lastUpdate + d`; the result is the final game and the total number
of ticks. -/
def Game.runFrames (draws : Nat → Cell) (fuel : Nat) : List ℚ → Game → Option (Game × Nat)
  | [], g => some (g, 0)
  | d :: ds, g =>
    match Game.loop draws fuel (g.lastUpdate + d) g,
        Game.loopTicks draws fuel (g.lastUpdate + d) g with
    | some g1, some k => (Game.runFrames draws fuel ds g1).map (fun r => (r.1, k + r.2))
    | _, _ => none

/-- Every frame of the sequence starts in the playing state. -/
def Game.FramesPlaying (draws : Nat → Cell) (fuel : Nat) : List ℚ → Game → Prop
  | [], _ => True
  | d :: ds, g =>
    g.state = GameState.playing ∧
      ∀ g1, Game.loop draws fuel (g.lastUpdate + d) g = some g1 →
        Game.FramesPlaying draws fuel ds g1

/-! ## Game.js: pause and resume -/

/-- The part of the document `pause()` and `resume()` act on: whether the
elements `#pause-overlay`, `.pause-icon` and `.play-icon` carry the class
`hidden`; `none` when the element does not exist. -/
structure Dom where
  pauseOverlayHidden : Option Bool
  pauseIconHidden : Option Bool
  playIconHidden : Option Bool
  deriving DecidableEq

/-- `Game.showOverlay('pause-overlay')`. -/
def Dom.showPauseOverlay (dom : Dom) : Dom :=
  { dom with pauseOverlayHidden := dom.pauseOverlayHidden.map (fun _ => false) }

/-- `Game.hideOverlay('pause-overlay')`. -/
def Dom.hidePauseOverlay (dom : Dom) : Dom :=
  { dom with pauseOverlayHidden := dom.pauseOverlayHidden.map (fun _ => true) }

/-- `Game.updatePauseButton(isPaused)`. -/
def Dom.updatePauseButton (dom : Dom) (isPaused : Bool) : Dom :=
  match dom.pauseIconHidden, dom.playIconHidden with
  | some _, some _ =>
    { dom with pauseIconHidden := some isPaused, playIconHidden := some (!isPaused) }
  | _, _ => dom

/-- `Game.pause()`. -/
def Game.pause (g : Game) (dom : Dom) : Game × Dom :=
  if g.state ≠ GameState.playing then (g, dom)
  else ({ g with state := GameState.paused }, dom.showPauseOverlay.updatePauseButton true)

/-- `Game.resume()`; `now` is the value of `performance.now()`. -/
def Game.resume (now : ℚ) (g : Game) (dom : Dom) : Game × Dom :=
  if g.state ≠ GameState.paused then (g, dom)
  else
    ({ g with state := GameState.playing, lastUpdate := now, accumulator := 0 },
      dom.hidePauseOverlay.updatePauseButton false)

/-! ## Game.js: path smoothing and drawing -/

/-- `Game.subdivideLine(a, b, steps)`. -/
def subdivideLine (a b : Point) (steps : Nat) : List Point :=
  (List.range (steps + 1)).map (fun (i : Nat) =>
    let t := (i : ℚ) / (steps : ℚ)
    { x := a.x + (b.x - a.x) * t, y := a.y + (b.y - a.y) * t })

/-- The number `steps` of `buildSmoothPath` for the span from `p1` to `p2`.
`sqrt` stands for `Math.sqrt`; `Math.round(v)` is `⌊v + 1/2⌋`. -/
def spanSteps (sqrt : ℚ → ℚ) (cellSize : ℚ) (p1 p2 : Point) : Int :=
  let dx := p2.x - p1.x
  let dy := p2.y - p1.y
  let segLen := sqrt (dx * dx + dy * dy)
  max 3 (min 10 ⌊segLen / (cellSize * 0.3) + 1 / 2⌋)

/-- The point pushed by the inner loop of `buildSmoothPath` for the parameter
`t` and the window `p0, p1, p2, p3` (tension `0.5`). -/
def splinePoint (p0 p1 p2 p3 : Point) (t : ℚ) : Point :=
  let tt := t * t
  let ttt := tt * t
  let s : ℚ := 0.5
  let h1 := -s * ttt + 2 * s * tt - s * t
  let h2 := (2 - s) * ttt + (s - 3) * tt + 1
  let h3 := (s - 2) * ttt + (3 - 2 * s) * tt + s * t
  let h4 := s * ttt - s * tt
  { x := h1 * p0.x + h2 * p1.x + h3 * p2.x + h4 * p3.x
    y := h1 * p0.y + h2 * p1.y + h3 * p2.y + h4 * p3.y }

/-- The points pushed by one iteration of the outer loop of `buildSmoothPath`:
`j = 0, ..., steps - 1` with `t = j / steps`. -/
def splineSpan (sqrt : ℚ → ℚ) (cellSize : ℚ) (p0 p1 p2 p3 : Point) : List Point :=
  let steps := spanSteps sqrt cellSize p1 p2
  (List.range steps.toNat).map (fun (j : Nat) => splinePoint p0 p1 p2 p3 ((j : ℚ) / (steps : ℚ)))

/-- The outer loop `for (i = 1; i < pts.length - 2; i++)` of `buildSmoothPath`:
one span per window `pts[i-1], pts[i], pts[i+1], pts[i+2]`, in order. -/
def splineSpans (sqrt : ℚ → ℚ) (cellSize : ℚ) : List Point → List Point
  | [] => []
  | p0 :: rest =>
    match rest with
    | p1 :: p2 :: p3 :: _ =>
      splineSpan sqrt cellSize p0 p1 p2 p3 ++ splineSpans sqrt cellSize rest
    | _ => []

/-- `Game.buildSmoothPath(controlPoints)` for the given `cellSize`. -/
def buildSmoothPath (sqrt : ℚ → ℚ) (cellSize : ℚ) (controlPoints : List Point) : List Point :=
  if controlPoints.length < 2 then controlPoints
  else
    match controlPoints with
    | [a, b] => subdivideLine a b 4
    | _ =>
      match controlPoints.head?, controlPoints.getLast? with
      | some first, some last =>
        splineSpans sqrt cellSize ([first] ++ controlPoints ++ [last]) ++ [last]
      | _, _ => []

/-- `Game.widthAt(t, maxW, minW)`. -/
def widthAt (t maxW minW : ℚ) : ℚ :=
  let w : ℚ :=
    if t < 0.06 then 0.82 + t * 3
    else if t < 0.2 then 1.0
    else
      let f := (t - 0.2) / 0.8
      1.0 - f * f * 0.85
  max (maxW * w * 0.5) (minW * 0.5)

/-- The value `globalT` of `Game.computeBodyGeometry` at index `i` of a polyline
of `len` points. -/
def bodyGlobalT (len totalSegs gOff chunkSegs i : Nat) : ℚ :=
  let localT := (i : ℚ) / max ((len : ℚ) - 1) 1
  ((gOff : ℚ) + localT * chunkSegs) / max ((totalSegs : ℚ) - 1) 1

/-- The array `widths` of `Game.computeBodyGeometry` (the normals, which need
square roots, are left out). -/
def bodyWidths (len : Nat) (maxW minW : ℚ) (totalSegs gOff chunkSegs : Nat) : List ℚ :=
  (List.range len).map (fun i => widthAt (bodyGlobalT len totalSegs gOff chunkSegs i) maxW minW)

/-- The calls `drawSnake` makes: `drawSnakeHead(ctx, pos, direction, cellSize)`,
`drawBody(ctx, points, maxW, minW, totalSegs, gOff, chunkSegs, isShadow)` and
`drawShine(ctx, points, maxW, minW, totalSegs, gOff, chunkSegs)`. -/
inductive DrawRequest where
  | head (pos : Point) (direction : Cell) (cellSize : ℚ)
  | body (points : List Point) (maxW minW : ℚ) (totalSegs gOff chunkSegs : Nat)
      (isShadow : Bool)
  | shine (points : List Point) (maxW minW : ℚ) (totalSegs gOff chunkSegs : Nat)
  deriving DecidableEq

/-- The loop over the chunks of `Game.drawSnake`, from chunk index `c` with the
running `globalOffset`: the calls it makes, in order.  `smooth[0]` exists
because a smoothed chunk is never empty. -/
def drawSnakeLoop (sqrt : ℚ → ℚ) (cellSize : ℚ) (direction : Cell) (totalLen : Nat) :
    List (List Point) → Nat → Nat → List DrawRequest
  | [], _, _ => []
  | chunk :: rest, c, globalOffset =>
    if chunk.length < 2 then
      drawSnakeLoop sqrt cellSize direction totalLen rest (c + 1) (globalOffset + chunk.length)
    else
      let smooth := buildSmoothPath sqrt cellSize chunk
      let bodyWidth := cellSize * 0.72
      let tailTip := cellSize * 0.15
      [DrawRequest.body smooth (bodyWidth + 3) (tailTip + 1) totalLen globalOffset
          chunk.length true,
        DrawRequest.body smooth bodyWidth tailTip totalLen globalOffset chunk.length false,
        DrawRequest.shine smooth bodyWidth tailTip totalLen globalOffset chunk.length] ++
      (if c = 0 then (smooth.head?.toList.map (fun p => DrawRequest.head p direction cellSize))
        else []) ++
      drawSnakeLoop sqrt cellSize direction totalLen rest (c + 1) (globalOffset + chunk.length)

/-- `Game.drawSnake(ctx)` as the list of calls it makes, for the display points
`points`, the heading `direction` of the snake and the cell size. -/
def drawSnake (sqrt : ℚ → ℚ) (cellSize : ℚ) (direction : Cell) (points : List Point) :
    List DrawRequest :=
  match points with
  | [] => []
  | [p] => [DrawRequest.head p direction cellSize]
  | _ =>
    drawSnakeLoop sqrt cellSize direction points.length
      (splitIntoContinuousChunks cellSize points) 0 0

/-! ## Reachable snake states -/

/-- The snake states reachable from `reset()` by calls of `queueDirection` with
a unit axis vector and calls of `update`. -/
inductive Snake.Reachable (gridSize : Int) : Snake → Prop where
  | reset : Snake.Reachable gridSize (Snake.reset gridSize)
  | queueDirection (s : Snake) (d : Cell) :
      Snake.Reachable gridSize s → d.isUnitAxis → Snake.Reachable gridSize (s.queueDirection d)
  | update (s s1 : Snake) (walls : Bool) :
      Snake.Reachable gridSize s → s.update walls = some s1 → Snake.Reachable gridSize s1

/-- The queue is perpendicular-chained: its first entry is neither the heading
nor its reverse, and each later entry is neither the entry before it nor its
reverse. -/
def Snake.PerpChained (s : Snake) : Prop :=
  List.Chain (fun a b => b ≠ a ∧ b ≠ a.neg) s.direction s.directionQueue

/-- `Game.drawSnake(ctx)` on the fields of the game. -/
def Game.drawSnake (sqrt : ℚ → ℚ) (g : Game) : List DrawRequest :=
  SnakeGame.drawSnake sqrt g.cellSize g.snake.direction g.displayPoints

/-- A round under way: positive move interval, a snake with at least one
segment and a non-empty current snapshot. -/
def Game.Running (g : Game) : Prop :=
  0 < g.moveInterval ∧ g.snake.segments ≠ [] ∧ g.snapshotCurr ≠ []

/-- A straight snake of 5 segments on the 20-cell grid, head at `(19, 5)`,
heading `(1, 0)`, nothing queued, not growing. -/
def wrapSnake : Snake :=
  { gridSize := 20
    segments := [⟨19, 5⟩, ⟨18, 5⟩, ⟨17, 5⟩, ⟨16, 5⟩, ⟨15, 5⟩]
    direction := ⟨1, 0⟩
    nextDirection := ⟨1, 0⟩
    growing := false
    directionQueue := [] }

/-- A round in progress on the 20-cell grid at the fastest speed (move
interval 45 ms): the snake has curled up, its head at `(5, 5)` heading up, the
player has queued a right turn into the snake's own body, and the food lies two
cells to the right of the head. -/
def curledGame : Game :=
  { walls := true
    gridSize := 20
    state := GameState.playing
    score := 0
    highscore := 0
    snake :=
      { gridSize := 20
        segments := [⟨5, 5⟩, ⟨5, 6⟩, ⟨6, 6⟩, ⟨6, 5⟩, ⟨6, 4⟩]
        direction := ⟨0, -1⟩
        nextDirection := ⟨1, 0⟩
        growing := false
        directionQueue := [⟨1, 0⟩] }
    food := { gridSize := 20, position := ⟨7, 5⟩, pulsePhase := 0, spawnAnimation := 0 }
    grid := { gridSize := 20, cellSize := 20, offset := ⟨16, 16⟩ }
    cellSize := 20
    lastUpdate := 0
    accumulator := 0
    moveInterval := 45
    lerpProgress := 1
    snapshotPrev := [⟨126, 126⟩, ⟨126, 146⟩, ⟨146, 146⟩, ⟨146, 126⟩, ⟨146, 106⟩]
    snapshotCurr := [⟨126, 126⟩, ⟨126, 146⟩, ⟨146, 146⟩, ⟨146, 126⟩, ⟨146, 106⟩]
    displayPoints := [⟨126, 126⟩, ⟨126, 146⟩, ⟨146, 146⟩, ⟨146, 126⟩, ⟨146, 106⟩]
    drawn := 0 }

/-- The round of `curledGame` with walls disabled and the straight snake
`wrapSnake` about to leave the grid on the right. -/
def wrapGame : Game :=
  { curledGame with
    walls := false
    snake := wrapSnake
    snapshotPrev := [⟨406, 126⟩, ⟨386, 126⟩, ⟨366, 126⟩, ⟨346, 126⟩, ⟨326, 126⟩]
    snapshotCurr := [⟨406, 126⟩, ⟨386, 126⟩, ⟨366, 126⟩, ⟨346, 126⟩, ⟨326, 126⟩]
    displayPoints := [⟨406, 126⟩, ⟨386, 126⟩, ⟨366, 126⟩, ⟨346, 126⟩, ⟨326, 126⟩] }

/-! ## Movement of the snake -/

theorem wrapCoord_emod (gridSize v d : Int) (h0 : 0 ≤ v) (h1 : v < gridSize)
    (hd : d = 1 ∨ d = -1 ∨ d = 0) : wrapCoord gridSize (v + d) = (v + d) % gridSize := by
  have key : ∀ w : Int, (0 ≤ w ∧ w < gridSize → wrapCoord gridSize w = w % gridSize) := by
    intro w hw
    have h2 : ¬ (w < 0) := by omega
    have h3 : ¬ (w ≥ gridSize) := by omega
    unfold wrapCoord
    simp only [h2, h3, if_false]
    rw [Int.emod_eq_of_lt hw.1 hw.2]
  rcases hd with rfl | rfl | rfl
  · by_cases hv : v + 1 = gridSize
    · have h2 : ¬ (gridSize < 0) := by omega
      rw [hv, Int.emod_self]
      unfold wrapCoord
      simp [h2]
    · exact key _ (by omega)
  · by_cases hv : v = 0
    · subst hv
      have h3 : ¬ (gridSize - 1 ≥ gridSize) := by omega
      have h4 : ((0 : Int) + -1) % gridSize = gridSize - 1 := by
        have : ((0 : Int) + -1) = (gridSize - 1) + gridSize * (-1) := by ring
        rw [this, Int.add_mul_emod_self_left, Int.emod_eq_of_lt (by omega) (by omega)]
      rw [h4]
      unfold wrapCoord
      simp only [h3, if_false]
      simp
    · exact key _ (by omega)
  · exact key _ (by omega)

theorem wrapCoord_range (gridSize v : Int) (h : 0 < gridSize) :
    0 ≤ wrapCoord gridSize v ∧ wrapCoord gridSize v < gridSize := by
  unfold wrapCoord
  by_cases h1 : v < 0
  · have h3 : ¬ (gridSize - 1 ≥ gridSize) := by omega
    simp only [h1, if_true, h3, if_false]
    omega
  · by_cases h2 : v ≥ gridSize
    · simp only [h1, if_false, h2, if_true]
      omega
    · simp only [h1, if_false, h2]
      omega

theorem adoptQueued_direction (s : Snake) :
    s.adoptQueued.direction =
      (s.directionQueue.head?.filter (fun n => decide (n ≠ s.direction.neg))).getD
        s.direction := by
  unfold Snake.adoptQueued
  cases hq : s.directionQueue with
  | nil => simp
  | cons next rest =>
    by_cases hn : next.x = -s.direction.x ∧ next.y = -s.direction.y
    · have h1 : next = s.direction.neg := by
        cases next; simp only [Cell.neg] at *; simp [hn.1, hn.2]
      simp only [if_neg (not_not_intro hn)]
      simp [Option.filter, h1]
    · have h1 : next ≠ s.direction.neg := by
        intro h; apply hn; rw [h]; simp [Cell.neg]
      simp only [if_pos hn]
      simp [Option.filter, h1]

theorem adoptQueued_segments (s : Snake) : s.adoptQueued.segments = s.segments := by
  unfold Snake.adoptQueued
  split
  · rfl
  · split <;> rfl

theorem adoptQueued_growing (s : Snake) : s.adoptQueued.growing = s.growing := by
  unfold Snake.adoptQueued
  split
  · rfl
  · split <;> rfl

theorem adoptQueued_gridSize (s : Snake) : s.adoptQueued.gridSize = s.gridSize := by
  unfold Snake.adoptQueued
  split
  · rfl
  · split <;> rfl

theorem isUnitAxis_coords (d : Cell) (h : d.isUnitAxis) :
    (d.x = 1 ∨ d.x = -1 ∨ d.x = 0) ∧ (d.y = 1 ∨ d.y = -1 ∨ d.y = 0) := by
  rcases h with rfl | rfl | rfl | rfl <;> simp

theorem update_of_cons (s : Snake) (walls : Bool) (hd : Cell) (tl : List Cell)
    (hseg : s.segments = hd :: tl) :
    s.update walls = some { s.adoptQueued with
      segments :=
        if !s.growing then
          ((if !walls then
              (⟨wrapCoord s.gridSize (hd.x + s.adoptQueued.direction.x),
                wrapCoord s.gridSize (hd.y + s.adoptQueued.direction.y)⟩ : Cell)
            else ⟨hd.x + s.adoptQueued.direction.x, hd.y + s.adoptQueued.direction.y⟩) ::
            hd :: tl).dropLast
        else
          (if !walls then
              (⟨wrapCoord s.gridSize (hd.x + s.adoptQueued.direction.x),
                wrapCoord s.gridSize (hd.y + s.adoptQueued.direction.y)⟩ : Cell)
            else ⟨hd.x + s.adoptQueued.direction.x, hd.y + s.adoptQueued.direction.y⟩) ::
            hd :: tl
      growing := false } := by
  have hh : s.adoptQueued.head = some hd := by
    simp [Snake.head, adoptQueued_segments, hseg]
  simp only [Snake.update, hh, adoptQueued_segments, adoptQueued_growing,
    adoptQueued_gridSize, hseg]

/-- C1: for a snake with head `hd` inside the grid, `update(walls)` returns, the
new heading `d` is the oldest queued direction unless there is none or it is
the reverse of the current heading (then `d` is the current heading), and, `d`
being a unit axis vector, the new segment list is `h' :: rest` with
`h' = hd + d` under walls, `h' = (hd + d) mod gridSize` per axis without walls,
and `rest` the old list when the growth flag was set, the old list without its
last element otherwise. -/
theorem update_segments (s : Snake) (walls : Bool) (hd : Cell) (tl : List Cell)
    (hseg : s.segments = hd :: tl)
    (hin : 0 ≤ hd.x ∧ hd.x < s.gridSize ∧ 0 ≤ hd.y ∧ hd.y < s.gridSize)
    (hunit : ((s.directionQueue.head?.filter (fun n => decide (n ≠ s.direction.neg))).getD
      s.direction).isUnitAxis) :
    ∃ s1, s.update walls = some s1 ∧
      s1.direction =
        (s.directionQueue.head?.filter (fun n => decide (n ≠ s.direction.neg))).getD
          s.direction ∧
      s1.segments =
        (if walls then (⟨hd.x + s1.direction.x, hd.y + s1.direction.y⟩ : Cell)
          else ⟨(hd.x + s1.direction.x) % s.gridSize, (hd.y + s1.direction.y) % s.gridSize⟩) ::
        (if s.growing then s.segments else s.segments.dropLast) := by
  rw [← adoptQueued_direction] at hunit ⊢
  have hc := isUnitAxis_coords _ hunit
  refine ⟨_, update_of_cons s walls hd tl hseg, rfl, ?_⟩
  simp only [hseg]
  cases walls <;> cases hg : s.growing <;>
    simp [wrapCoord_emod _ _ _ hin.1 hin.2.1 hc.1,
      wrapCoord_emod _ _ _ hin.2.2.1 hin.2.2.2 hc.2]

/-- Witness for C1: the two scenarios of the claim, from `reset()` with grid size
20 and from a head at `(19, 5)` heading `(1, 0)` without walls. -/
theorem update_segments_witness :
    (∃ s1, (Snake.reset 20).update true = some s1 ∧
      s1.segments = [⟨11, 10⟩, ⟨10, 10⟩, ⟨9, 10⟩, ⟨8, 10⟩, ⟨7, 10⟩]) ∧
    (∃ s1, (Snake.update
        { gridSize := 20
          segments := [⟨19, 5⟩, ⟨18, 5⟩, ⟨17, 5⟩, ⟨16, 5⟩, ⟨15, 5⟩]
          direction := ⟨1, 0⟩
          nextDirection := ⟨1, 0⟩
          growing := false
          directionQueue := [] } false) = some s1 ∧
      s1.segments = [⟨0, 5⟩, ⟨19, 5⟩, ⟨18, 5⟩, ⟨17, 5⟩, ⟨16, 5⟩]) := by
  constructor
  · obtain ⟨s1, h1, h2, h3⟩ := update_segments (Snake.reset 20) true ⟨10, 10⟩
      [⟨9, 10⟩, ⟨8, 10⟩, ⟨7, 10⟩, ⟨6, 10⟩] (by decide) (by decide) (by decide)
    refine ⟨s1, h1, ?_⟩
    rw [h3, h2]
    decide
  · obtain ⟨s1, h1, h2, h3⟩ := update_segments
      { gridSize := 20
        segments := [⟨19, 5⟩, ⟨18, 5⟩, ⟨17, 5⟩, ⟨16, 5⟩, ⟨15, 5⟩]
        direction := ⟨1, 0⟩
        nextDirection := ⟨1, 0⟩
        growing := false
        directionQueue := [] } false ⟨19, 5⟩
      [⟨18, 5⟩, ⟨17, 5⟩, ⟨16, 5⟩, ⟨15, 5⟩] (by decide) (by decide) (by decide)
    refine ⟨s1, h1, ?_⟩
    rw [h3, h2]
    decide

/-- C2: on a snake with at least one segment, `update(walls)` returns; the
number of segments goes from `n` to `n + 1` when the growth flag was set and
stays `n` otherwise, and the growth flag is false afterwards. -/
theorem update_length (s : Snake) (walls : Bool) (h : s.segments ≠ []) :
    ∃ s1, s.update walls = some s1 ∧
      s1.segments.length = (if s.growing then s.segments.length + 1 else s.segments.length) ∧
      s1.growing = false := by
  obtain ⟨hd, tl, hseg⟩ := List.exists_cons_of_ne_nil h
  refine ⟨_, update_of_cons s walls hd tl hseg, ?_, rfl⟩
  simp only [hseg]
  cases hg : s.growing <;> simp

/-- Witness for C2: a growing snake of 5 segments has 6 after one update. -/
theorem update_length_witness :
    ∃ s1, (Snake.reset 20).grow.update true = some s1 ∧
      s1.segments.length = 6 ∧ s1.growing = false := by
  obtain ⟨s1, h1, h2, h3⟩ := update_length (Snake.reset 20).grow true (by decide)
  exact ⟨s1, h1, by rw [h2]; decide, h3⟩

/-- C3: when the heading is a unit axis vector, whatever the direction queue
holds, the heading after `update(walls)` is not the negation of the heading
before it.  The heading is settled by the queue phase of `update`, which always
completes; `update` as a whole returns whenever the snake has a segment. -/
theorem update_no_reversal (s : Snake) (walls : Bool) (h : s.direction.isUnitAxis) :
    s.adoptQueued.direction ≠ s.direction.neg ∧
    (∀ s1, s.update walls = some s1 → s1.direction ≠ s.direction.neg) ∧
    (s.segments ≠ [] → ∃ s1, s.update walls = some s1) := by
  have hne : s.direction ≠ s.direction.neg := by
    rcases h with h | h | h | h <;> rw [h] <;> decide
  have h1 : s.adoptQueued.direction ≠ s.direction.neg := by
    rw [adoptQueued_direction]
    cases hq : s.directionQueue.head? with
    | none => simpa [Option.filter] using hne
    | some next =>
      by_cases hn : next = s.direction.neg
      · simpa [Option.filter, hn] using hne
      · simp [Option.filter, hn]
  refine ⟨h1, ?_, ?_⟩
  · intro s1 hs1
    cases hseg : s.segments with
    | nil =>
      have hh : s.adoptQueued.head = none := by
        simp [Snake.head, adoptQueued_segments, hseg]
      simp [Snake.update, hh] at hs1
    | cons hd tl =>
      rw [update_of_cons s walls hd tl hseg] at hs1
      cases hs1
      exact h1
  · intro hseg
    obtain ⟨hd, tl, hcons⟩ := List.exists_cons_of_ne_nil hseg
    exact ⟨_, update_of_cons s walls hd tl hcons⟩

/-- Witness for C3: heading `(1, 0)` with the reverse `(-1, 0)` queued. -/
theorem update_no_reversal_witness :
    ∃ s1, (Snake.update { Snake.reset 20 with directionQueue := [⟨-1, 0⟩] } true) = some s1 ∧
      s1.direction ≠ ⟨-1, 0⟩ := by
  have h := update_no_reversal { Snake.reset 20 with directionQueue := [⟨-1, 0⟩] } true
    (by decide)
  obtain ⟨s1, hs1⟩ := h.2.2 (by decide)
  exact ⟨s1, hs1, h.2.1 s1 hs1⟩

/-- C4: with `last` the last queued direction, or the heading when the queue is
empty, `queueDirection(dir)` returns the state unchanged when `dir = -last`,
when `dir = last` or when the queue is full (3 entries or more), and otherwise
appends `dir` to the queue and changes nothing else; on a queue of at most 3
entries "full" is "holds 3 entries".  Hence a queue of at most 3 entries stays
so under `queueDirection`; `reset()` starts with an empty queue and `update`
never lengthens it. -/
theorem queueDirection_spec (s : Snake) (dir : Cell) :
    (s.queueDirection dir =
      if dir = (s.directionQueue.getLast?.getD s.direction).neg ∨
          dir = s.directionQueue.getLast?.getD s.direction ∨
          3 ≤ s.directionQueue.length then s
      else { s with directionQueue := s.directionQueue ++ [dir] }) ∧
    (s.directionQueue.length ≤ 3 →
      s.queueDirection dir =
        if dir = (s.directionQueue.getLast?.getD s.direction).neg ∨
            dir = s.directionQueue.getLast?.getD s.direction ∨
            s.directionQueue.length = 3 then s
        else { s with directionQueue := s.directionQueue ++ [dir] }) ∧
    (s.directionQueue.length ≤ 3 → (s.queueDirection dir).directionQueue.length ≤ 3) ∧
    (∀ gridSize, (Snake.reset gridSize).directionQueue = []) ∧
    (∀ walls s1, s.update walls = some s1 →
      s1.directionQueue.length ≤ s.directionQueue.length) := by
  have hlast : (if s.directionQueue.length > 0 then s.directionQueue.getLast?.getD s.direction
      else s.direction) = s.directionQueue.getLast?.getD s.direction := by
    cases hq : s.directionQueue with
    | nil => simp
    | cons a l => simp
  have hneg : ∀ c : Cell, (dir.x = -c.x ∧ dir.y = -c.y) ↔ dir = c.neg := by
    intro c; cases dir; simp [Cell.neg]
  have heq : ∀ c : Cell, (dir.x = c.x ∧ dir.y = c.y) ↔ dir = c := by
    intro c; cases dir; cases c; simp
  have hmain : s.queueDirection dir =
      if dir = (s.directionQueue.getLast?.getD s.direction).neg ∨
          dir = s.directionQueue.getLast?.getD s.direction ∨
          3 ≤ s.directionQueue.length then s
      else { s with directionQueue := s.directionQueue ++ [dir] } := by
    simp only [Snake.queueDirection, hlast, hneg, heq]
    by_cases h1 : dir = (s.directionQueue.getLast?.getD s.direction).neg
    · simp [h1]
    · by_cases h2 : dir = s.directionQueue.getLast?.getD s.direction
      · simp [h2]
      · by_cases h3 : s.directionQueue.length < 3
        · have h4 : ¬ (3 ≤ s.directionQueue.length) := by omega
          simp [h1, h2, h3, h4]
        · have h4 : 3 ≤ s.directionQueue.length := by omega
          simp [h1, h2, h3, h4]
  refine ⟨hmain, ?_, ?_, fun _ => rfl, ?_⟩
  · intro hle
    have h3 : 3 ≤ s.directionQueue.length ↔ s.directionQueue.length = 3 := by omega
    rw [hmain]
    simp only [h3]
  · intro hle
    rw [hmain]
    split
    · exact hle
    · rename_i hc
      simp only [List.length_append, List.length_singleton]
      simp only [not_or, not_le] at hc
      omega
  · intro walls s1 hs1
    have hq : s.adoptQueued.directionQueue.length ≤ s.directionQueue.length := by
      unfold Snake.adoptQueued
      split
      · exact le_refl _
      · rename_i next rest hq
        rw [hq]
        split <;> simp
    cases hseg : s.segments with
    | nil =>
      have hh : s.adoptQueued.head = none := by
        simp [Snake.head, adoptQueued_segments, hseg]
      simp [Snake.update, hh] at hs1
    | cons hd tl =>
      rw [update_of_cons s walls hd tl hseg] at hs1
      cases hs1
      exact hq

/-- Witness for C4: heading `(1, 0)`; queueing `(0, -1)` then `(0, 1)` leaves the
queue as `[(0, -1)]`, and one update makes `(0, -1)` the heading. -/
theorem queueDirection_spec_witness :
    (((Snake.reset 20).queueDirection ⟨0, -1⟩).queueDirection ⟨0, 1⟩).directionQueue =
      [⟨0, -1⟩] ∧
    ((((Snake.reset 20).queueDirection ⟨0, -1⟩).queueDirection ⟨0, 1⟩).update true).map
      (fun s1 => s1.direction) = some ⟨0, -1⟩ ∧
    (((Snake.reset 20).queueDirection ⟨0, -1⟩).queueDirection ⟨0, 1⟩).directionQueue.length
      ≤ 3 := by
  have h1 := (queueDirection_spec (Snake.reset 20) ⟨0, -1⟩).2.2.1 (by decide)
  have h2 := (queueDirection_spec ((Snake.reset 20).queueDirection ⟨0, -1⟩) ⟨0, 1⟩).2.2.1 h1
  exact ⟨by decide, by decide, h2⟩

theorem update_cons_form (s : Snake) (walls : Bool) (hd : Cell) (tl : List Cell)
    (hseg : s.segments = hd :: tl) :
    ∃ s1, s.update walls = some s1 ∧ s1.gridSize = s.gridSize ∧
      s1.segments =
        (if !walls then
            (⟨wrapCoord s.gridSize (hd.x + s.adoptQueued.direction.x),
              wrapCoord s.gridSize (hd.y + s.adoptQueued.direction.y)⟩ : Cell)
          else ⟨hd.x + s.adoptQueued.direction.x, hd.y + s.adoptQueued.direction.y⟩) ::
        (if s.growing then hd :: tl else (hd :: tl).dropLast) := by
  refine ⟨_, update_of_cons s walls hd tl hseg, adoptQueued_gridSize s, ?_⟩
  cases hg : s.growing <;> simp

theorem checkSelfCollision_cons (s : Snake) (hd : Cell) (tl : List Cell)
    (hseg : s.segments = hd :: tl) (h : s.checkSelfCollision = false) : hd ∉ tl := by
  intro hmem
  simp only [Snake.checkSelfCollision, hseg] at h
  rw [List.any_eq_false] at h
  exact h hd hmem (by simp)

/-- C5: the state built by `reset()` is valid for grid sizes 15, 20 and 25, and
a tick that does not end the round preserves validity: on a valid state
`update(walls)` returns a state that is valid whenever `checkSelfCollision()`
is false on it and, with walls enabled, `checkWallCollision()` is false on
it. -/
theorem valid_preserved :
    (Snake.reset 15).Valid ∧ (Snake.reset 20).Valid ∧ (Snake.reset 25).Valid ∧
    ∀ (s : Snake) (walls : Bool), s.Valid →
      ∃ s1, s.update walls = some s1 ∧
        (s1.checkSelfCollision = false →
          (walls = true → s1.checkWallCollision = some false) → s1.Valid) := by
  refine ⟨by decide, by decide, by decide, ?_⟩
  intro s walls hv
  obtain ⟨hne, hgrid, hnodup⟩ := hv
  obtain ⟨hd, tl, hseg⟩ := List.exists_cons_of_ne_nil hne
  obtain ⟨s1, hs1, hgs, hsegs⟩ := update_cons_form s walls hd tl hseg
  refine ⟨s1, hs1, ?_⟩
  intro hself hwall
  have hnot := checkSelfCollision_cons s1 _ _ hsegs hself
  have hsub : List.Sublist (if s.growing then hd :: tl else (hd :: tl).dropLast) (hd :: tl) := by
    split
    · exact List.Sublist.refl _
    · exact List.dropLast_sublist _
  have hpos : 0 < s.gridSize := by
    have := hgrid hd (by rw [hseg]; exact List.mem_cons_self _ _)
    omega
  refine ⟨by rw [hsegs]; exact List.cons_ne_nil _ _, ?_, ?_⟩
  · intro c hc
    rw [hsegs] at hc
    rw [hgs]
    rcases List.mem_cons.mp hc with hc | hc
    · subst hc
      cases walls with
      | false =>
        have hx := wrapCoord_range s.gridSize (hd.x + s.adoptQueued.direction.x) hpos
        have hy := wrapCoord_range s.gridSize (hd.y + s.adoptQueued.direction.y) hpos
        simpa using ⟨hx.1, hx.2, hy.1, hy.2⟩
      | true =>
        have hw := hwall rfl
        simp only [Snake.checkWallCollision, Snake.head, hsegs, List.head?_cons, hgs] at hw
        simp only [Option.some.injEq, Bool.or_eq_false_iff, decide_eq_false_iff_not] at hw
        simp only [Bool.not_true, Bool.false_eq_true, if_false] at hw ⊢
        omega
    · exact hgrid c (by rw [hseg]; exact hsub.subset hc)
  · rw [hsegs]
    exact List.nodup_cons.mpr ⟨hnot, (hseg ▸ hnodup).sublist hsub⟩

/-- Witness for C5: one tick from `reset()` on the 20-cell grid, walls on. -/
theorem valid_preserved_witness :
    (Snake.reset 20).Valid ∧
    ∃ s1, (Snake.reset 20).update true = some s1 ∧ s1.Valid := by
  obtain ⟨s1, h1, h2⟩ := valid_preserved.2.2.2 (Snake.reset 20) true (by decide)
  have h3 : (Snake.reset 20).update true = some
      { gridSize := 20
        segments := [⟨11, 10⟩, ⟨10, 10⟩, ⟨9, 10⟩, ⟨8, 10⟩, ⟨7, 10⟩]
        direction := ⟨1, 0⟩
        nextDirection := ⟨1, 0⟩
        growing := false
        directionQueue := [] } := by decide
  have h4 : s1 = _ := Option.some.inj (h1.symm.trans h3)
  refine ⟨by decide, s1, h1, h2 ?_ ?_⟩
  · rw [h4]; decide
  · intro _; rw [h4]; decide

/-! ## Ticks after a collision -/

theorem spawnLoop_free (snake : Snake) (draws : Nat → Cell) (fuel attempts : Nat)
    (h : snake.occupies (draws attempts).x (draws attempts).y = false) :
    Food.spawnLoop snake draws (fuel + 1) attempts = (draws attempts, attempts + 1) := by
  simp [Food.spawnLoop, h]

theorem runTicks_done (draws : Nat → Cell) (fuel : Nat) (g : Game)
    (h : g.accumulator < g.moveInterval) : Game.runTicks draws fuel g = some g := by
  cases fuel <;> simp [Game.runTicks, not_le.mpr h]

/-- C6 (defect in the code): in `curledGame` the first tick of a frame runs the
snake into itself and ends the round with score 0; a frame of 50 ms stops
there.  A frame of 100 ms (the clamp of `loop`) covers two ticks of 45 ms, and
the second tick runs although the state is already `gameover`: it moves the
snake once more, onto the food, and raises the score to 10.  The result is the
same for every fuel of at least 2. -/
theorem loop_ticks_after_collision (fuel : Nat) :
    (Game.loop (fun _ => ⟨1, 1⟩) (fuel + 2) 50 curledGame).map
        (fun g => (g.state, g.score, g.snake.segments)) =
      some (GameState.gameover, 0, [⟨6, 5⟩, ⟨5, 5⟩, ⟨5, 6⟩, ⟨6, 6⟩, ⟨6, 5⟩]) ∧
    (Game.loop (fun _ => ⟨1, 1⟩) (fuel + 2) 100 curledGame).map
        (fun g => (g.state, g.score, g.snake.segments)) =
      some (GameState.gameover, 10, [⟨7, 5⟩, ⟨6, 5⟩, ⟨5, 5⟩, ⟨5, 6⟩, ⟨6, 6⟩]) := by
  have h0 : min (((50 : ℚ) - 0) / 1000) 0.1 * 1000 = 50 := by norm_num
  have h1 : min (((100 : ℚ) - 0) / 1000) 0.1 * 1000 = 100 := by norm_num
  have h2 : ∀ (s : Snake) (d : Nat → Cell), s.occupies (d 0).x (d 0).y = false →
      Food.spawnLoop s d 1000 0 = (d 0, 1) := fun s d h => spawnLoop_free s d 999 0 h
  have h3 : ∀ g : Game, g.accumulator < g.moveInterval →
      Game.runTicks (fun _ => ⟨1, 1⟩) fuel g = some g :=
    fun g h => runTicks_done _ fuel g h
  have h4 : ∀ g : Game, g.accumulator < g.moveInterval →
      Game.runTicks (fun _ => ⟨1, 1⟩) (fuel + 1) g = some g :=
    fun g h => runTicks_done _ (fuel + 1) g h
  constructor
  · simp only [Game.loop, curledGame, h0, zero_add]
    rw [Game.runTicks]
    norm_num [Game.tick, Snake.update, Snake.adoptQueued, Snake.head, wrapCoord,
      Snake.checkWallCollision, Snake.checkSelfCollision, Game.gameOver, Food.isAt,
      Game.takeSnapshot, padSnapshot, Snake.grow, Food.spawn, Food.spawnDraws,
      Snake.occupies, h2, h4]
  · simp only [Game.loop, curledGame, h1, zero_add]
    rw [Game.runTicks]
    norm_num [Game.tick, Snake.update, Snake.adoptQueued, Snake.head, wrapCoord,
      Snake.checkWallCollision, Snake.checkSelfCollision, Game.gameOver, Food.isAt,
      Game.takeSnapshot, padSnapshot, Snake.grow, Food.spawn, Food.spawnDraws,
      Snake.occupies, h2]
    rw [Game.runTicks]
    norm_num [Game.tick, Snake.update, Snake.adoptQueued, Snake.head, wrapCoord,
      Snake.checkWallCollision, Snake.checkSelfCollision, Game.gameOver, Food.isAt,
      Game.takeSnapshot, padSnapshot, Snake.grow, Food.spawn, Food.spawnDraws,
      Snake.occupies, h2, h3]

/-! ## Food placement -/

theorem spawnLoop_first_free (snake : Snake) (draws : Nat → Cell) (k : Nat) (hk : k < 1000)
    (hfree : snake.occupies (draws k).x (draws k).y = false) :
    ∀ (fuel a : Nat), a ≤ k → k - a < fuel →
      (∀ j, a ≤ j → j < k → snake.occupies (draws j).x (draws j).y = true) →
      Food.spawnLoop snake draws fuel a = (draws k, k + 1) := by
  intro fuel
  induction fuel with
  | zero => intro a _ h; omega
  | succ fuel ih =>
    intro a hak hfuel hocc
    by_cases hEq : a = k
    · subst hEq
      exact spawnLoop_free snake draws fuel a hfree
    · have h1 : snake.occupies (draws a).x (draws a).y = true := hocc a (le_refl _) (by omega)
      have h2 : a + 1 < 1000 := by omega
      simp only [Food.spawnLoop, h1, h2, decide_True, Bool.and_self, if_true]
      exact ih (a + 1) (by omega) (by omega) (fun j hj hjk => hocc j (by omega) hjk)

theorem spawnLoop_all_occupied (snake : Snake) (draws : Nat → Cell) :
    ∀ (fuel a : Nat), a < 1000 → 1000 ≤ fuel + a →
      (∀ j, a ≤ j → j < 1000 → snake.occupies (draws j).x (draws j).y = true) →
      Food.spawnLoop snake draws fuel a = (draws 999, 1000) := by
  intro fuel
  induction fuel with
  | zero => intro a h1 h2; omega
  | succ fuel ih =>
    intro a ha hfuel hocc
    have h1 : snake.occupies (draws a).x (draws a).y = true := hocc a (le_refl _) ha
    by_cases h2 : a + 1 < 1000
    · simp only [Food.spawnLoop, h1, h2, decide_True, Bool.and_self, if_true]
      exact ih (a + 1) h2 (by omega) (fun j hj hjk => hocc j (by omega) hjk)
    · have h3 : a = 999 := by omega
      subst h3
      simp [Food.spawnLoop]

theorem spawnLoop_attempts_le (snake : Snake) (draws : Nat → Cell) :
    ∀ (fuel a : Nat), a < 1000 → (Food.spawnLoop snake draws fuel a).2 ≤ 1000 := by
  intro fuel
  induction fuel with
  | zero => intro a ha; simp only [Food.spawnLoop]; omega
  | succ fuel ih =>
    intro a ha
    simp only [Food.spawnLoop]
    split
    · rename_i hc
      simp only [Bool.and_eq_true, decide_eq_true_eq] at hc
      exact ih (a + 1) hc.2
    · show a + 1 ≤ 1000
      omega

/-- C7: with `draws 0, draws 1, ...` the cells drawn by `spawn`, the food is
placed at `draws k` for the least `k < 1000` whose cell the snake does not
occupy, using `k + 1` draws, and at `draws 999` after 1000 draws when the first
1000 cells are all occupied; never more than 1000 draws are used, the spawn-in
progress is set to 1, and the food cell is free whenever one of the first 1000
draws is free. -/
theorem spawn_spec (f : Food) (snake : Snake) (draws : Nat → Cell) :
    (∀ k, k < 1000 → snake.occupies (draws k).x (draws k).y = false →
      (∀ j, j < k → snake.occupies (draws j).x (draws j).y = true) →
      (f.spawn snake draws).position = draws k ∧ Food.spawnDraws snake draws = k + 1) ∧
    ((∀ j, j < 1000 → snake.occupies (draws j).x (draws j).y = true) →
      (f.spawn snake draws).position = draws 999 ∧ Food.spawnDraws snake draws = 1000) ∧
    Food.spawnDraws snake draws ≤ 1000 ∧
    (f.spawn snake draws).spawnAnimation = 1 ∧
    ((∃ k, k < 1000 ∧ snake.occupies (draws k).x (draws k).y = false) →
      snake.occupies (f.spawn snake draws).position.x (f.spawn snake draws).position.y
        = false) := by
  have first : ∀ k, k < 1000 → snake.occupies (draws k).x (draws k).y = false →
      (∀ j, j < k → snake.occupies (draws j).x (draws j).y = true) →
      (f.spawn snake draws).position = draws k ∧ Food.spawnDraws snake draws = k + 1 := by
    intro k hk hfree hocc
    have h := spawnLoop_first_free snake draws k hk hfree 1000 0 (Nat.zero_le _) (by omega)
      (fun j _ hjk => hocc j hjk)
    simp [Food.spawn, Food.spawnDraws, h]
  refine ⟨first, ?_, ?_, rfl, ?_⟩
  · intro hocc
    have h := spawnLoop_all_occupied snake draws 1000 0 (by omega) (by omega)
      (fun j _ hj => hocc j hj)
    simp [Food.spawn, Food.spawnDraws, h]
  · exact spawnLoop_attempts_le snake draws 1000 0 (by omega)
  · intro hex
    classical
    have hk := Nat.find_spec hex
    have hmin : ∀ j, j < Nat.find hex → snake.occupies (draws j).x (draws j).y = true := by
      intro j hj
      have := Nat.find_min hex hj
      simp only [not_and, Bool.not_eq_false] at this
      exact this (lt_trans hj hk.1)
    rw [(first (Nat.find hex) hk.1 hk.2 hmin).1]
    exact hk.2

/-- Witness for C7: the first drawn cell `(10, 10)` is the head of the snake of
`reset()`, the second, `(3, 3)`, is free: the food goes to `(3, 3)` after 2
draws. -/
theorem spawn_spec_witness :
    ((Food.new 20).spawn (Snake.reset 20)
      (fun k => if k = 0 then ⟨10, 10⟩ else ⟨3, 3⟩)).position = ⟨3, 3⟩ ∧
    Food.spawnDraws (Snake.reset 20) (fun k => if k = 0 then ⟨10, 10⟩ else ⟨3, 3⟩) = 2 := by
  have h := (spawn_spec (Food.new 20) (Snake.reset 20)
    (fun k => if k = 0 then ⟨10, 10⟩ else ⟨3, 3⟩)).1 1 (by decide) (by decide)
    (by intro j hj; have : j = 0 := by omega
        subst this; decide)
  exact h

/-! ## Splitting the display points into chunks -/

theorem splitStep_flatten (m : ℚ) (st : List (List Point) × List Point) (pt : Point) :
    (splitStep m st pt).1.flatten ++ (splitStep m st pt).2 = st.1.flatten ++ st.2 ++ [pt] := by
  unfold splitStep
  split
  · simp
  · dsimp only
    split <;> simp

theorem foldl_splitStep_flatten (m : ℚ) (points : List Point) :
    ∀ st : List (List Point) × List Point,
      (points.foldl (splitStep m) st).1.flatten ++ (points.foldl (splitStep m) st).2 =
        st.1.flatten ++ st.2 ++ points := by
  induction points with
  | nil => intro st; simp
  | cons pt rest ih =>
    intro st
    rw [List.foldl_cons, ih, splitStep_flatten]
    simp

theorem splitStep_inv (m : ℚ) (st : List (List Point) × List Point) (pt : Point)
    (h : SplitInv m st) : SplitInv m (splitStep m st pt) := by
  obtain ⟨hne, hnear, hcur, hapart, hlast⟩ := h
  unfold splitStep
  split
  · rename_i hnone
    have hnil : st.2 = [] := List.getLast?_eq_none_iff.mp hnone
    refine ⟨hne, hnear, by simp [hnil], hapart, ?_⟩
    intro x hx
    obtain ⟨a, b, _, hb, _⟩ := hlast x hx
    simp [hnil] at hb
  · rename_i prev hprev
    have hcne : st.2 ≠ [] := by
      intro h0; rw [h0] at hprev; simp at hprev
    dsimp only
    split
    · rename_i hfar
      refine ⟨?_, ?_, List.chain'_singleton pt, ?_, ?_⟩
      · intro c hc
        rcases List.mem_append.mp hc with hc | hc
        · exact hne c hc
        · rw [List.mem_singleton.mp hc]; exact hcne
      · intro c hc
        rcases List.mem_append.mp hc with hc | hc
        · exact hnear c hc
        · rw [List.mem_singleton.mp hc]; exact hcur
      · rw [List.chain'_append]
        refine ⟨hapart, List.chain'_singleton _, ?_⟩
        intro x hx y hy
        simp only [List.head?_cons, Option.mem_def, Option.some.injEq] at hy
        subst hy
        exact hlast x hx
      · intro x hx
        rw [List.getLast?_concat] at hx
        cases hx
        exact ⟨prev, pt, hprev, rfl, hfar⟩
    · rename_i hclose
      refine ⟨hne, hnear, ?_, hapart, ?_⟩
      · rw [List.chain'_append]
        refine ⟨hcur, List.chain'_singleton _, ?_⟩
        intro x hx y hy
        simp only [List.head?_cons, Option.mem_def, Option.some.injEq] at hy
        subst hy
        rw [Option.mem_def, hprev] at hx
        cases hx
        exact not_lt.mp hclose
      · intro x hx
        obtain ⟨a, b, ha, hb, hab⟩ := hlast x hx
        exact ⟨a, b, ha, by rw [List.head?_append_of_ne_nil _ hcne]; exact hb, hab⟩

theorem foldl_splitStep_inv (m : ℚ) (points : List Point) :
    ∀ st : List (List Point) × List Point, SplitInv m st →
      SplitInv m (points.foldl (splitStep m) st) := by
  induction points with
  | nil => intro st h; exact h
  | cons pt rest ih =>
    intro st h
    rw [List.foldl_cons]
    exact ih _ (splitStep_inv m st pt h)

theorem splitInv_init (m : ℚ) : SplitInv m ([], []) := by
  refine ⟨?_, ?_, List.chain'_nil, List.chain'_nil, ?_⟩
  · intro c hc; simp at hc
  · intro c hc; simp at hc
  · intro x hx; simp at hx

theorem split_result_inv (cellSize : ℚ) (points : List Point) :
    (∀ c ∈ splitIntoContinuousChunks cellSize points, c ≠ []) ∧
    (∀ c ∈ splitIntoContinuousChunks cellSize points, List.Chain' (Near (cellSize * 1.8)) c) ∧
    List.Chain' (Apart (cellSize * 1.8)) (splitIntoContinuousChunks cellSize points) := by
  obtain ⟨hne, hnear, hcur, hapart, hlast⟩ :=
    foldl_splitStep_inv (cellSize * 1.8) points ([], []) (splitInv_init _)
  simp only [splitIntoContinuousChunks]
  split
  · rename_i hpos
    have hcne : (points.foldl (splitStep (cellSize * 1.8)) ([], [])).2 ≠ [] :=
      List.ne_nil_of_length_pos hpos
    refine ⟨?_, ?_, ?_⟩
    · intro c hc
      rcases List.mem_append.mp hc with hc | hc
      · exact hne c hc
      · rw [List.mem_singleton.mp hc]; exact hcne
    · intro c hc
      rcases List.mem_append.mp hc with hc | hc
      · exact hnear c hc
      · rw [List.mem_singleton.mp hc]; exact hcur
    · rw [List.chain'_append]
      refine ⟨hapart, List.chain'_singleton _, ?_⟩
      intro x hx y hy
      simp only [List.head?_cons, Option.mem_def, Option.some.injEq] at hy
      subst hy
      exact hlast x hx
  · exact ⟨hne, hnear, hapart⟩

theorem chain_adjacent {α : Type} (R : α → α → Prop) :
    ∀ (l : List α) (i : Nat) (a b : α), List.Chain' R l →
      l[i]? = some a → l[i + 1]? = some b → R a b := by
  intro l
  induction l with
  | nil => intro i a b _ ha; simp at ha
  | cons x xs ih =>
    intro i a b hch ha hb
    cases xs with
    | nil => simp at hb
    | cons y ys =>
      rw [List.chain'_cons] at hch
      cases i with
      | zero =>
        simp only [List.getElem?_cons_zero, Option.some.injEq, zero_add,
          List.getElem?_cons_succ] at ha hb
        subst ha; subst hb
        exact hch.1
      | succ j =>
        rw [List.getElem?_cons_succ] at ha hb
        exact ih j a b hch.2 ha hb

/-- C8: concatenating the chunks returned by `splitIntoContinuousChunks`, in
order, gives back the input sequence, and no returned chunk is empty. -/
theorem split_concat (cellSize : ℚ) (points : List Point) :
    (splitIntoContinuousChunks cellSize points).flatten = points ∧
    ∀ c ∈ splitIntoContinuousChunks cellSize points, c ≠ [] := by
  refine ⟨?_, (split_result_inv cellSize points).1⟩
  have h := foldl_splitStep_flatten (cellSize * 1.8) points ([], [])
  simp only [List.flatten_nil, List.nil_append] at h
  simp only [splitIntoContinuousChunks]
  split
  · simpa using h
  · rename_i hlen
    have hnil : (points.foldl (splitStep (cellSize * 1.8)) ([], [])).2 = [] := by
      apply List.eq_nil_of_length_eq_zero
      omega
    rw [hnil, List.append_nil] at h
    exact h

/-- C9: inside every chunk returned by `splitIntoContinuousChunks` two
consecutive points have squared distance at most `(1.8 * cellSize)^2`; for two
consecutive chunks, the last point of the first and the first point of the
second exist and have squared distance greater than `(1.8 * cellSize)^2`. -/
theorem split_runs (cellSize : ℚ) (points : List Point) :
    (∀ chunk ∈ splitIntoContinuousChunks cellSize points, ∀ (i : Nat) (a b : Point),
      chunk[i]? = some a → chunk[i + 1]? = some b → sqDist a b ≤ (1.8 * cellSize) ^ 2) ∧
    (∀ (i : Nat) (c1 c2 : List Point),
      (splitIntoContinuousChunks cellSize points)[i]? = some c1 →
      (splitIntoContinuousChunks cellSize points)[i + 1]? = some c2 →
      ∃ a b, c1.getLast? = some a ∧ c2.head? = some b ∧
        sqDist a b > (1.8 * cellSize) ^ 2) := by
  obtain ⟨_, hnear, hapart⟩ := split_result_inv cellSize points
  have hsq : (1.8 * cellSize) ^ 2 = cellSize * 1.8 * (cellSize * 1.8) := by ring
  rw [hsq]
  constructor
  · intro c hc i a b ha hb
    exact chain_adjacent (Near (cellSize * 1.8)) c i a b (hnear c hc) ha hb
  · intro i c1 c2 h1 h2
    exact chain_adjacent (Apart (cellSize * 1.8)) _ i c1 c2 hapart h1 h2

/-- Witness for C9: with cell size 10 the points `(0,0), (10,0), (100,0)` split
into `[(0,0), (10,0)]` and `[(100,0)]`; the first two are near, the last two
apart. -/
theorem split_runs_witness :
    splitIntoContinuousChunks 10 [⟨0, 0⟩, ⟨10, 0⟩, ⟨100, 0⟩] =
      [[⟨0, 0⟩, ⟨10, 0⟩], [⟨100, 0⟩]] ∧
    sqDist ⟨0, 0⟩ ⟨10, 0⟩ ≤ (1.8 * 10) ^ 2 ∧
    sqDist ⟨10, 0⟩ ⟨100, 0⟩ > (1.8 * 10) ^ 2 := by
  have hs : splitIntoContinuousChunks 10 [⟨0, 0⟩, ⟨10, 0⟩, ⟨100, 0⟩] =
      [[⟨0, 0⟩, ⟨10, 0⟩], [⟨100, 0⟩]] := by
    simp only [splitIntoContinuousChunks, splitStep, List.foldl_cons, List.foldl_nil]
    norm_num
  have h := split_runs 10 [⟨0, 0⟩, ⟨10, 0⟩, ⟨100, 0⟩]
  rw [hs] at h
  refine ⟨hs, h.1 [⟨0, 0⟩, ⟨10, 0⟩] (by simp) 0 ⟨0, 0⟩ ⟨10, 0⟩ rfl rfl, ?_⟩
  obtain ⟨a, b, ha, hb, hab⟩ := h.2 0 [⟨0, 0⟩, ⟨10, 0⟩] [⟨100, 0⟩] rfl rfl
  simp only [List.getLast?, List.getLast, List.head?_cons, Option.some.injEq] at ha hb
  rw [← ha, ← hb] at hab
  exact hab

/-! ## Interpolation -/

theorem easeInOutQuad_one : easeInOutQuad 1 = 1 := by
  norm_num [easeInOutQuad]

theorem displayPoint_one (prev : List Point) (maxJump : ℚ) (i : Nat) (p : Point) :
    displayPoint prev 1 maxJump i p = p := by
  cases p with
  | mk px py =>
    simp only [displayPoint]
    split <;> simp

/-- C10: with interpolation progress 1, `computeDisplayPoints` yields exactly the
current snapshot, point by point, for every previous snapshot (of equal length
in particular) and every cell size, in exact arithmetic. -/
theorem computeDisplayPoints_one (prev curr : List Point) (cellSize : ℚ) :
    computeDisplayPoints prev curr 1 cellSize = curr := by
  simp only [computeDisplayPoints, easeInOutQuad_one, displayPoint_one]
  exact List.enum_map_snd curr

theorem easeInOutQuad_zero : easeInOutQuad 0 = 0 := by
  norm_num [easeInOutQuad]

theorem length_computeDisplayPoints (prev curr : List Point) (t cellSize : ℚ) :
    (computeDisplayPoints prev curr t cellSize).length = curr.length := by
  simp [computeDisplayPoints, List.enum]

theorem getElem?_computeDisplayPoints (prev curr : List Point) (t cellSize : ℚ) (i : Nat) :
    (computeDisplayPoints prev curr t cellSize)[i]? =
      (curr[i]?).map (fun q => displayPoint prev (easeInOutQuad t) (cellSize * 2) i q) := by
  simp only [computeDisplayPoints, List.getElem?_map, List.getElem?_enum, Option.map_map]
  rfl

/-- Counterexample for C11: the snapshots around a wrap from `(19, 5)` to
`(0, 5)` (cell size 20, offset 16) have equal length, and at progress 0 the
head display point is the current head `(26, 126)`, not the previous
`(406, 126)`. -/
theorem computeDisplayPoints_zero_snaps :
    ([⟨406, 126⟩, ⟨386, 126⟩, ⟨366, 126⟩, ⟨346, 126⟩, ⟨326, 126⟩] : List Point).length =
      ([⟨26, 126⟩, ⟨406, 126⟩, ⟨386, 126⟩, ⟨366, 126⟩, ⟨346, 126⟩] : List Point).length ∧
    computeDisplayPoints
        [⟨406, 126⟩, ⟨386, 126⟩, ⟨366, 126⟩, ⟨346, 126⟩, ⟨326, 126⟩]
        [⟨26, 126⟩, ⟨406, 126⟩, ⟨386, 126⟩, ⟨366, 126⟩, ⟨346, 126⟩] 0 20 =
      [⟨26, 126⟩, ⟨386, 126⟩, ⟨366, 126⟩, ⟨346, 126⟩, ⟨326, 126⟩] ∧
    computeDisplayPoints
        [⟨406, 126⟩, ⟨386, 126⟩, ⟨366, 126⟩, ⟨346, 126⟩, ⟨326, 126⟩]
        [⟨26, 126⟩, ⟨406, 126⟩, ⟨386, 126⟩, ⟨366, 126⟩, ⟨346, 126⟩] 0 20 ≠
      [⟨406, 126⟩, ⟨386, 126⟩, ⟨366, 126⟩, ⟨346, 126⟩, ⟨326, 126⟩] := by
  have h : computeDisplayPoints
        [⟨406, 126⟩, ⟨386, 126⟩, ⟨366, 126⟩, ⟨346, 126⟩, ⟨326, 126⟩]
        [⟨26, 126⟩, ⟨406, 126⟩, ⟨386, 126⟩, ⟨366, 126⟩, ⟨346, 126⟩] 0 20 =
      [⟨26, 126⟩, ⟨386, 126⟩, ⟨366, 126⟩, ⟨346, 126⟩, ⟨326, 126⟩] := by
    simp only [computeDisplayPoints, easeInOutQuad_zero, List.enum, List.enumFrom, List.map,
      displayPoint]
    norm_num [abs_of_pos, abs_of_neg]
  refine ⟨rfl, h, ?_⟩
  rw [h]
  decide

/-- C11 (amended): for snapshots of equal length and every cell size, at
progress 0 `computeDisplayPoints` yields as many points as the snapshots hold,
and at each index the previous point when the current point is within
`2 * cellSize` of it on both axes, the current point otherwise. -/
theorem computeDisplayPoints_zero (prev curr : List Point) (cellSize : ℚ)
    (h : prev.length = curr.length) :
    (computeDisplayPoints prev curr 0 cellSize).length = prev.length ∧
    ∀ (i : Nat) (p q : Point), prev[i]? = some p → curr[i]? = some q →
      (computeDisplayPoints prev curr 0 cellSize)[i]? =
        some (if |q.x - p.x| > cellSize * 2 ∨ |q.y - p.y| > cellSize * 2 then q else p) := by
  refine ⟨by rw [length_computeDisplayPoints, h], ?_⟩
  intro i p q hp hq
  rw [getElem?_computeDisplayPoints, hq, easeInOutQuad_zero]
  have hi : i < prev.length := by
    by_contra hc
    rw [List.getElem?_eq_none (not_lt.mp hc)] at hp
    cases hp
  have hget : prev.getD i q = p := by
    rw [List.getD_eq_getElem?_getD, hp]
    rfl
  simp only [Option.map_some', displayPoint, hi, if_true, hget]
  cases p; cases q
  split <;> simp

/-- Witness for C11 (amended): a point that moves by one cell stays at its
previous position at progress 0; a point that jumps by five cells snaps. -/
theorem computeDisplayPoints_zero_witness :
    (computeDisplayPoints [⟨0, 0⟩, ⟨10, 0⟩] [⟨10, 0⟩, ⟨60, 0⟩] 0 10)[0]? = some ⟨0, 0⟩ ∧
    (computeDisplayPoints [⟨0, 0⟩, ⟨10, 0⟩] [⟨10, 0⟩, ⟨60, 0⟩] 0 10)[1]? = some ⟨60, 0⟩ := by
  have h := (computeDisplayPoints_zero [⟨0, 0⟩, ⟨10, 0⟩] [⟨10, 0⟩, ⟨60, 0⟩] 10 rfl).2
  constructor
  · rw [h 0 ⟨0, 0⟩ ⟨10, 0⟩ rfl rfl]
    norm_num [abs_of_pos]
  · rw [h 1 ⟨10, 0⟩ ⟨60, 0⟩ rfl rfl]
    norm_num [abs_of_pos]

/-! ## Smoothed paths -/

theorem splinePoint_zero (p0 p1 p2 p3 : Point) : splinePoint p0 p1 p2 p3 0 = p1 := by
  cases p1
  simp [splinePoint]

theorem spanSteps_ge (sqrt : ℚ → ℚ) (cellSize : ℚ) (p1 p2 : Point) :
    3 ≤ spanSteps sqrt cellSize p1 p2 := by
  unfold spanSteps
  exact le_max_left _ _

theorem head?_splineSpan (sqrt : ℚ → ℚ) (cellSize : ℚ) (p0 p1 p2 p3 : Point)
    (rest : List Point) :
    (splineSpan sqrt cellSize p0 p1 p2 p3 ++ rest).head? = some p1 := by
  have h3 := spanSteps_ge sqrt cellSize p1 p2
  obtain ⟨n, hn⟩ : ∃ n, (spanSteps sqrt cellSize p1 p2).toNat = n + 1 :=
    ⟨(spanSteps sqrt cellSize p1 p2).toNat - 1, by omega⟩
  simp only [splineSpan, hn, List.range_succ_eq_map]
  simp [splinePoint_zero]

theorem splineSpans_window (sqrt : ℚ → ℚ) (cellSize : ℚ) (p0 p1 p2 p3 : Point)
    (rest : List Point) :
    splineSpans sqrt cellSize (p0 :: p1 :: p2 :: p3 :: rest) =
      splineSpan sqrt cellSize p0 p1 p2 p3 ++ splineSpans sqrt cellSize (p1 :: p2 :: p3 :: rest) := by
  simp [splineSpans]

/-- C12: `buildSmoothPath` preserves endpoints.  A chunk of 2 points gives 5
points, the first equal to the first input point and the last to the second; a
chunk of 3 or more points (positive cell size) gives a path whose first point
is the first control point and whose last point is the last control point; a
chunk of fewer than 2 points is returned as it is. -/
theorem buildSmoothPath_endpoints (sqrt : ℚ → ℚ) (cellSize : ℚ) :
    (∀ a b : Point,
      (buildSmoothPath sqrt cellSize [a, b]).length = 5 ∧
      (buildSmoothPath sqrt cellSize [a, b]).head? = some a ∧
      (buildSmoothPath sqrt cellSize [a, b]).getLast? = some b) ∧
    (0 < cellSize → ∀ controlPoints : List Point, 3 ≤ controlPoints.length →
      (buildSmoothPath sqrt cellSize controlPoints).head? = controlPoints.head? ∧
      (buildSmoothPath sqrt cellSize controlPoints).getLast? = controlPoints.getLast?) ∧
    (∀ controlPoints : List Point, controlPoints.length < 2 →
      buildSmoothPath sqrt cellSize controlPoints = controlPoints) := by
  refine ⟨?_, ?_, ?_⟩
  · intro a b
    cases a; cases b
    simp [buildSmoothPath, subdivideLine, List.range_succ]
  · intro _ controlPoints hlen
    match controlPoints, hlen with
    | a :: b :: d :: rest, _ =>
      obtain ⟨last, hlast⟩ : ∃ last, (a :: b :: d :: rest).getLast? = some last := by
        cases h : (a :: b :: d :: rest).getLast? with
        | none => simp at h
        | some last => exact ⟨last, rfl⟩
      have hb : buildSmoothPath sqrt cellSize (a :: b :: d :: rest) =
          splineSpans sqrt cellSize ([a] ++ (a :: b :: d :: rest) ++ [last]) ++ [last] := by
        simp only [buildSmoothPath, hlast]
        simp
      rw [hb, hlast]
      constructor
      · have hl : [a] ++ (a :: b :: d :: rest) ++ [last] =
            a :: a :: b :: d :: (rest ++ [last]) := by simp
        rw [hl, splineSpans_window, List.append_assoc, head?_splineSpan]
        rfl
      · simp
  · intro controlPoints hlen
    simp [buildSmoothPath, hlen]

/-- Witness for C12: a straight chunk of three points with cell size 10, for a
square-root function that is exact on the squares met. -/
theorem buildSmoothPath_endpoints_witness :
    (buildSmoothPath (fun v => if v = 100 then 10 else 0) 10
      [⟨0, 0⟩, ⟨10, 0⟩, ⟨20, 0⟩]).head? = some ⟨0, 0⟩ ∧
    (buildSmoothPath (fun v => if v = 100 then 10 else 0) 10
      [⟨0, 0⟩, ⟨10, 0⟩, ⟨20, 0⟩]).getLast? = some ⟨20, 0⟩ := by
  have h := (buildSmoothPath_endpoints (fun v => if v = 100 then 10 else 0) 10).2.1
    (by norm_num) [⟨0, 0⟩, ⟨10, 0⟩, ⟨20, 0⟩] (by decide)
  exact h

/-! ## The frame loop -/

theorem gameOver_fields (g : Game) :
    g.gameOver.accumulator = g.accumulator ∧ g.gameOver.moveInterval = g.moveInterval ∧
    g.gameOver.snapshotPrev = g.snapshotPrev ∧ g.gameOver.snapshotCurr = g.snapshotCurr ∧
    g.gameOver.cellSize = g.cellSize ∧ g.gameOver.grid = g.grid ∧
    g.gameOver.lastUpdate = g.lastUpdate ∧ g.gameOver.walls = g.walls ∧
    g.gameOver.snake = g.snake := by
  unfold Game.gameOver
  dsimp only
  split <;> simp

theorem tick_fields (draws : Nat → Cell) (g g2 : Game) (h : g.tick draws = some g2) :
    g2.accumulator = g.accumulator ∧ g2.moveInterval = g.moveInterval ∧
    g2.snapshotPrev = g.snapshotPrev ∧ g2.snapshotCurr = g.snapshotCurr ∧
    g2.cellSize = g.cellSize ∧ g2.grid = g.grid ∧
    g2.lastUpdate = g.lastUpdate ∧ g2.walls = g.walls ∧
    ∃ s1, g.snake.update g.walls = some s1 ∧ g2.snake.segments = s1.segments ∧
      g2.snake.direction = s1.direction := by
  unfold Game.tick at h
  cases hu : g.snake.update g.walls with
  | none => simp [hu] at h
  | some s1 =>
    simp only [hu] at h
    cases hw : s1.checkWallCollision with
    | none => simp [hw] at h
    | some hitWall =>
      cases hh : s1.head with
      | none => simp [hw, hh] at h
      | some head =>
        simp only [hw, hh] at h
        split at h
        · cases h
          obtain ⟨h1, h2, h3, h4, h5, h6, h7, h8, h9⟩ :=
            gameOver_fields { g with snake := s1 }
          exact ⟨h1, h2, h3, h4, h5, h6, h7, h8, s1, rfl, by rw [h9], by rw [h9]⟩
        · split at h
          · cases h
            obtain ⟨h1, h2, h3, h4, h5, h6, h7, h8, h9⟩ :=
              gameOver_fields { g with snake := s1 }
            exact ⟨h1, h2, h3, h4, h5, h6, h7, h8, s1, rfl, by rw [h9], by rw [h9]⟩
          · split at h
            · cases h
              exact ⟨rfl, rfl, rfl, rfl, rfl, rfl, rfl, rfl, s1, rfl, rfl, rfl⟩
            · cases h
              exact ⟨rfl, rfl, rfl, rfl, rfl, rfl, rfl, rfl, s1, rfl, rfl, rfl⟩

theorem tick_isSome (draws : Nat → Cell) (g : Game) (h : g.snake.segments ≠ []) :
    ∃ g2, g.tick draws = some g2 := by
  obtain ⟨hd, tl, hseg⟩ := List.exists_cons_of_ne_nil h
  obtain ⟨s1, hs1, _, hsegs⟩ := update_cons_form g.snake g.walls hd tl hseg
  unfold Game.tick
  have hw : ∃ b, s1.checkWallCollision = some b := by
    simp [Snake.checkWallCollision, Snake.head, hsegs]
  obtain ⟨b, hb⟩ := hw
  have hh : ∃ q, s1.head = some q := by
    simp [Snake.head, hsegs]
  obtain ⟨q, hq⟩ := hh
  simp only [hs1, hb, hq]
  split_ifs <;> exact ⟨_, rfl⟩

theorem segments_after_update (s s1 : Snake) (walls : Bool) (h : s.update walls = some s1) :
    s1.segments ≠ [] ∧
    (s1.segments.length = s.segments.length ∨ s1.segments.length = s.segments.length + 1) := by
  cases hseg : s.segments with
  | nil =>
    have hh : s.adoptQueued.head = none := by
      simp [Snake.head, adoptQueued_segments, hseg]
    simp [Snake.update, hh] at h
  | cons hd tl =>
    obtain ⟨s2, hs2, _, hsegs⟩ := update_cons_form s walls hd tl hseg
    rw [h] at hs2
    cases hs2
    rw [hsegs]
    refine ⟨List.cons_ne_nil _ _, ?_⟩
    cases hg : s.growing <;> simp

theorem padSnapshot_spec (currLen : Nat) :
    ∀ (fuel : Nat) (prev : List Point) (last : Point), prev.getLast? = some last →
      padSnapshot currLen fuel prev =
        some (prev ++ List.replicate (min fuel (currLen - prev.length)) last) := by
  intro fuel
  induction fuel with
  | zero => intro prev last _; simp [padSnapshot]
  | succ fuel ih =>
    intro prev last hlast
    by_cases hlt : prev.length < currLen
    · simp only [padSnapshot, hlt, if_true, hlast]
      rw [ih (prev ++ [last]) last (List.getLast?_concat _)]
      have hm : min (fuel + 1) (currLen - prev.length) =
          min fuel (currLen - (prev ++ [last]).length) + 1 := by
        simp only [List.length_append, List.length_singleton]
        omega
      rw [hm, List.replicate_succ, List.append_assoc]
      rfl
    · have hz : currLen - prev.length = 0 := by omega
      simp [padSnapshot, hlt, hz]

theorem tickStep_fields (draws : Nat → Cell) (g g2 : Game) (h : g.tickStep draws = some g2) :
    g2.accumulator = g.accumulator - g.moveInterval ∧ g2.moveInterval = g.moveInterval ∧
    g2.cellSize = g.cellSize ∧ g2.grid = g.grid ∧ g2.lastUpdate = g.lastUpdate ∧
    g2.walls = g.walls ∧ g2.lerpProgress = 0 ∧ g2.snapshotCurr = g2.takeSnapshot ∧
    (∃ s1, g.snake.update g.walls = some s1 ∧ g2.snake.segments = s1.segments ∧
      g2.snake.direction = s1.direction) ∧
    padSnapshot g2.snapshotCurr.length (g2.snapshotCurr.length - g.snapshotCurr.length)
      g.snapshotCurr = some g2.snapshotPrev := by
  unfold Game.tickStep at h
  dsimp only at h
  cases ht : Game.tick draws { g with
      accumulator := g.accumulator - g.moveInterval, snapshotPrev := g.snapshotCurr } with
  | none => simp [ht] at h
  | some g1 =>
    obtain ⟨h1, h2, h3, h4, h5, h6, h7, h8, h9⟩ := tick_fields draws _ g1 ht
    simp only [ht] at h
    cases hp : padSnapshot g1.takeSnapshot.length
        (g1.takeSnapshot.length - g1.snapshotPrev.length) g1.snapshotPrev with
    | none => simp [hp] at h
    | some prev =>
      simp only [hp] at h
      cases h
      simp only at h1 h2 h3 h4 h5 h6 h7 h8 h9
      refine ⟨h1, h2, h5, h6, h7, h8, rfl, rfl, h9, ?_⟩
      rw [h3] at hp
      exact hp

theorem tickStep_isSome (draws : Nat → Cell) (g : Game) (hseg : g.snake.segments ≠ [])
    (hsnap : g.snapshotCurr ≠ []) : ∃ g2, g.tickStep draws = some g2 := by
  obtain ⟨g1, ht⟩ := tick_isSome draws { g with
      accumulator := g.accumulator - g.moveInterval, snapshotPrev := g.snapshotCurr } hseg
  obtain ⟨_, _, h3, _⟩ := tick_fields draws _ g1 ht
  obtain ⟨last, hlast⟩ : ∃ last, g1.snapshotPrev.getLast? = some last := by
    rw [h3]
    cases hq : g.snapshotCurr.getLast? with
    | none => exact absurd (List.getLast?_eq_none_iff.mp hq) hsnap
    | some last => exact ⟨last, rfl⟩
  unfold Game.tickStep
  simp only [ht, padSnapshot_spec _ _ _ _ hlast]
  exact ⟨_, rfl⟩

theorem runTicks_succ (draws : Nat → Cell) (fuel : Nat) (g : Game) :
    Game.runTicks draws (fuel + 1) g =
      if g.accumulator ≥ g.moveInterval then
        (g.tickStep draws).bind (Game.runTicks draws fuel)
      else some g := by
  simp only [Game.runTicks, Game.tickStep]
  split
  · cases Game.tick draws { g with
      accumulator := g.accumulator - g.moveInterval, snapshotPrev := g.snapshotCurr } with
    | none => rfl
    | some g2 =>
      dsimp only
      cases padSnapshot g2.takeSnapshot.length
        (g2.takeSnapshot.length - g2.snapshotPrev.length) g2.snapshotPrev <;> rfl
  · rfl

theorem tickStep_running (draws : Nat → Cell) (g g2 : Game) (hr : g.Running)
    (h : g.tickStep draws = some g2) : g2.Running := by
  obtain ⟨_, h2, _, _, _, _, _, h8, ⟨s1, hs1, hseg, _⟩, _⟩ := tickStep_fields draws g g2 h
  have hne : g2.snake.segments ≠ [] := by
    rw [hseg]; exact (segments_after_update _ _ _ hs1).1
  refine ⟨by rw [h2]; exact hr.1, hne, ?_⟩
  rw [h8]
  simpa [Game.takeSnapshot] using hne

theorem floor_step (acc mi : ℚ) (hmi : 0 < mi) (hge : acc ≥ mi) :
    ⌊acc / mi⌋₊ = ⌊(acc - mi) / mi⌋₊ + 1 := by
  have h1 : (acc - mi) / mi = acc / mi - 1 := by field_simp
  have h2 : (1 : ℚ) ≤ acc / mi := by rw [le_div_iff₀ hmi]; linarith
  have h3 : 1 ≤ ⌊acc / mi⌋₊ := Nat.le_floor (by simpa using h2)
  rw [h1]
  have h4 := Nat.floor_sub_nat (acc / mi) 1
  simp only [Nat.cast_one] at h4
  rw [h4]
  omega

theorem runTicks_spec (draws : Nat → Cell) :
    ∀ (fuel : Nat) (g : Game), g.Running → ⌊g.accumulator / g.moveInterval⌋₊ ≤ fuel →
      ∃ g1, Game.runTicks draws fuel g = some g1 ∧
        Game.countTicks draws fuel g = some ⌊g.accumulator / g.moveInterval⌋₊ ∧
        g1.accumulator =
          g.accumulator - (⌊g.accumulator / g.moveInterval⌋₊ : ℚ) * g.moveInterval ∧
        g1.moveInterval = g.moveInterval ∧ g1.Running ∧ g1.lastUpdate = g.lastUpdate ∧
        g1.cellSize = g.cellSize := by
  intro fuel
  induction fuel with
  | zero =>
    intro g hr hfl
    have hz : ⌊g.accumulator / g.moveInterval⌋₊ = 0 := by omega
    have hlt : g.accumulator < g.moveInterval := by
      have := Nat.floor_eq_zero.mp hz
      rwa [div_lt_one hr.1] at this
    refine ⟨g, by simp [Game.runTicks, not_le.mpr hlt], by simp [Game.countTicks, not_le.mpr hlt, hz],
      by simp [hz], rfl, hr, rfl, rfl⟩
  | succ fuel ih =>
    intro g hr hfl
    by_cases hge : g.accumulator ≥ g.moveInterval
    · obtain ⟨g2, hg2⟩ := tickStep_isSome draws g hr.2.1 hr.2.2
      obtain ⟨h1, h2, h3, _, h5, _⟩ := tickStep_fields draws g g2 hg2
      have hr2 := tickStep_running draws g g2 hr hg2
      have hstep := floor_step g.accumulator g.moveInterval hr.1 hge
      have hfl2 : ⌊g2.accumulator / g2.moveInterval⌋₊ ≤ fuel := by
        rw [h1, h2]; omega
      obtain ⟨g1, e1, e2, e3, e4, e5, e6, e7⟩ := ih g2 hr2 hfl2
      refine ⟨g1, ?_, ?_, ?_, by rw [e4, h2], e5, by rw [e6, h5], by rw [e7, h3]⟩
      · rw [runTicks_succ, if_pos hge, hg2]
        exact e1
      · simp only [Game.countTicks, if_pos hge, hg2, e2, Option.map_some', h1, h2]
        rw [hstep]
      · rw [e3, h1, h2, hstep]
        push_cast
        ring
    · have hlt : g.accumulator < g.moveInterval := not_le.mp hge
      have hz : ⌊g.accumulator / g.moveInterval⌋₊ = 0 := by
        rw [Nat.floor_eq_zero, div_lt_one hr.1]; exact hlt
      refine ⟨g, runTicks_done draws _ g hlt, by simp [Game.countTicks, hge, hz],
        by simp [hz], rfl, hr, rfl, rfl⟩

theorem runTicks_returns (draws : Nat → Cell) :
    ∀ (fuel : Nat) (g g1 : Game), 0 < g.moveInterval → Game.runTicks draws fuel g = some g1 →
      g1.moveInterval = g.moveInterval ∧ g1.accumulator < g1.moveInterval ∧
      (0 ≤ g.accumulator → 0 ≤ g1.accumulator) := by
  intro fuel
  induction fuel with
  | zero =>
    intro g g1 _ h
    simp only [Game.runTicks] at h
    split at h
    · cases h
    · rename_i hlt
      cases h
      exact ⟨rfl, not_le.mp hlt, fun h0 => h0⟩
  | succ fuel ih =>
    intro g g1 hmi h
    rw [runTicks_succ] at h
    split at h
    · rename_i hge
      cases hs : g.tickStep draws with
      | none => simp [hs] at h
      | some g2 =>
        simp only [hs, Option.some_bind] at h
        obtain ⟨h1, h2, _⟩ := tickStep_fields draws g g2 hs
        obtain ⟨e1, e2, e3⟩ := ih g2 g1 (by rw [h2]; exact hmi) h
        refine ⟨by rw [e1, h2], e2, fun _ => e3 ?_⟩
        rw [h1]
        linarith
    · rename_i hlt
      cases h
      exact ⟨rfl, not_le.mp hlt, fun h0 => h0⟩

theorem loop_spec (draws : Nat → Cell) (fuel : Nat) (timestamp : ℚ) (g : Game)
    (hplay : g.state = GameState.playing) (hr : g.Running)
    (hfuel : ⌊(g.accumulator + min ((timestamp - g.lastUpdate) / 1000) 0.1 * 1000) /
      g.moveInterval⌋₊ ≤ fuel) :
    ∃ g1, Game.loop draws fuel timestamp g = some g1 ∧
      Game.loopTicks draws fuel timestamp g =
        some ⌊(g.accumulator + min ((timestamp - g.lastUpdate) / 1000) 0.1 * 1000) /
          g.moveInterval⌋₊ ∧
      g1.accumulator = g.accumulator + min ((timestamp - g.lastUpdate) / 1000) 0.1 * 1000 -
        (⌊(g.accumulator + min ((timestamp - g.lastUpdate) / 1000) 0.1 * 1000) /
          g.moveInterval⌋₊ : ℚ) * g.moveInterval ∧
      g1.moveInterval = g.moveInterval ∧ g1.Running ∧ g1.lastUpdate = timestamp := by
  obtain ⟨g2, e1, e2, e3, e4, e5, e6, _⟩ := runTicks_spec draws fuel
    { g with
      lastUpdate := timestamp
      accumulator := g.accumulator + min ((timestamp - g.lastUpdate) / 1000) 0.1 * 1000 }
    hr hfuel
  simp only at e2 e3 e4 e6
  have hl : ∃ g1, Game.loop draws fuel timestamp g = some g1 ∧
      g1.accumulator = g2.accumulator ∧ g1.moveInterval = g2.moveInterval ∧
      g1.snake = g2.snake ∧ g1.snapshotCurr = g2.snapshotCurr ∧
      g1.lastUpdate = g2.lastUpdate := by
    unfold Game.loop
    dsimp only
    rw [if_pos hplay, e1]
    exact ⟨_, rfl, rfl, rfl, rfl, rfl, rfl⟩
  obtain ⟨g1, h1, h2, h3, h4, h5, h6⟩ := hl
  refine ⟨g1, h1, ?_, by rw [h2, e3], by rw [h3, e4], ?_, by rw [h6, e6]⟩
  · unfold Game.loopTicks
    dsimp only
    rw [if_pos hplay, e2]
  · exact ⟨by rw [h3, e4]; exact hr.1, by rw [h4]; exact e5.2.1, by rw [h5]; exact e5.2.2⟩

theorem loop_returns (draws : Nat → Cell) (fuel : Nat) (timestamp : ℚ) (g g1 : Game)
    (hplay : g.state = GameState.playing) (h : Game.loop draws fuel timestamp g = some g1) :
    ∃ g2, Game.runTicks draws fuel
        { g with
          lastUpdate := timestamp
          accumulator := g.accumulator + min ((timestamp - g.lastUpdate) / 1000) 0.1 * 1000 } =
        some g2 ∧
      g1.accumulator = g2.accumulator ∧ g1.moveInterval = g2.moveInterval ∧
      g1.lerpProgress = min (g2.accumulator / g2.moveInterval) 1 := by
  unfold Game.loop at h
  dsimp only at h
  rw [if_pos hplay] at h
  cases hrun : Game.runTicks draws fuel
      { g with
        lastUpdate := timestamp
        accumulator := g.accumulator + min ((timestamp - g.lastUpdate) / 1000) 0.1 * 1000 } with
  | none => simp [hrun] at h
  | some g2 =>
    simp only [hrun, Option.map_some', Option.some.injEq] at h
    subst h
    exact ⟨g2, rfl, rfl, rfl, rfl⟩

/-- Counterexample for C13: a game in the playing state with move interval 45
and accumulator 0 whose `lastUpdate` is 1000 receives the frame timestamp 991;
after the frame the interpolation progress is `-1/5`, below 0. -/
theorem loop_progress_negative :
    ({ curledGame with lastUpdate := 1000 } : Game).state = GameState.playing ∧
    (0 : ℚ) < ({ curledGame with lastUpdate := 1000 } : Game).moveInterval ∧
    ({ curledGame with lastUpdate := 1000 } : Game).accumulator = 0 ∧
    (Game.loop (fun _ => ⟨1, 1⟩) 0 991 { curledGame with lastUpdate := 1000 }).map
      (fun g => g.lerpProgress) = some (-1 / 5) ∧
    ¬ (0 ≤ (-1 / 5 : ℚ)) := by
  refine ⟨rfl, by norm_num [curledGame], rfl, ?_, by norm_num⟩
  have h1 : min (((991 : ℚ) - 1000) / 1000) 0.1 * 1000 = -9 := by norm_num
  simp only [Game.loop, curledGame, h1, zero_add]
  norm_num [Game.runTicks]

/-- C13 (amended): for a frame processed by `Game.loop` in the playing state
with `moveInterval > 0`, a timestamp not earlier than `lastUpdate` and a prior
accumulator in `[0, moveInterval)`, the interpolation progress after the frame
equals `accumulator / moveInterval` and lies in `[0, 1]`; the frame completes
(for every large enough fuel) when the snake and the current snapshot are not
empty. -/
theorem loop_progress (draws : Nat → Cell) (timestamp : ℚ) (g : Game)
    (hplay : g.state = GameState.playing) (hmi : 0 < g.moveInterval)
    (hacc : 0 ≤ g.accumulator ∧ g.accumulator < g.moveInterval)
    (hts : g.lastUpdate ≤ timestamp) :
    (∀ fuel g1, Game.loop draws fuel timestamp g = some g1 →
      g1.lerpProgress = g1.accumulator / g1.moveInterval ∧
      0 ≤ g1.lerpProgress ∧ g1.lerpProgress ≤ 1) ∧
    (g.snake.segments ≠ [] → g.snapshotCurr ≠ [] →
      ∃ N, ∀ fuel, N ≤ fuel → ∃ g1, Game.loop draws fuel timestamp g = some g1) := by
  have hdt : 0 ≤ min ((timestamp - g.lastUpdate) / 1000) 0.1 * 1000 := by
    apply mul_nonneg _ (by norm_num)
    apply le_min
    · apply div_nonneg (by linarith) (by norm_num)
    · norm_num
  constructor
  · intro fuel g1 h
    obtain ⟨g2, hrun, ha, hm, hl⟩ := loop_returns draws fuel timestamp g g1 hplay h
    obtain ⟨e1, e2, e3⟩ := runTicks_returns draws fuel _ g2 (by exact hmi) hrun
    have e3 : 0 ≤ g2.accumulator := e3 (by simp only; linarith [hacc.1])
    have hpos : 0 < g2.moveInterval := by rw [e1]; exact hmi
    have hlt : g2.accumulator / g2.moveInterval < 1 := by
      rw [div_lt_one hpos]; exact e2
    have hnn : 0 ≤ g2.accumulator / g2.moveInterval := div_nonneg e3 (le_of_lt hpos)
    rw [hl, ha, hm, min_eq_left (le_of_lt hlt)]
    exact ⟨rfl, hnn, le_of_lt hlt⟩
  · intro hseg hsnap
    refine ⟨⌊(g.accumulator + min ((timestamp - g.lastUpdate) / 1000) 0.1 * 1000) /
      g.moveInterval⌋₊, fun fuel hfuel => ?_⟩
    obtain ⟨g1, h1, _⟩ := loop_spec draws fuel timestamp g hplay ⟨hmi, hseg, hsnap⟩ hfuel
    exact ⟨g1, h1⟩

/-- Witness for C13 (amended): a frame of 50 ms on `curledGame`. -/
theorem loop_progress_witness :
    ∃ fuel g1, Game.loop (fun _ => ⟨1, 1⟩) fuel 50 curledGame = some g1 ∧
      g1.lerpProgress = g1.accumulator / g1.moveInterval ∧
      0 ≤ g1.lerpProgress ∧ g1.lerpProgress ≤ 1 := by
  have h := loop_progress (fun _ => ⟨1, 1⟩) 50 curledGame rfl (by norm_num [curledGame])
    (by norm_num [curledGame]) (by norm_num [curledGame])
  obtain ⟨N, hN⟩ := h.2 (by decide) (by decide)
  obtain ⟨g1, hg1⟩ := hN N (le_refl _)
  exact ⟨N, g1, hg1, h.1 N g1 hg1⟩

/-! ## Frames and ticks -/

theorem frame_delta (lastUpdate d : ℚ) (h1 : d ≤ 100) :
    min ((lastUpdate + d - lastUpdate) / 1000) 0.1 * 1000 = d := by
  have h : (lastUpdate + d - lastUpdate) / 1000 ≤ 0.1 := by
    rw [add_sub_cancel_left, div_le_iff₀ (by norm_num)]
    norm_num
    linarith
  rw [min_eq_left h, add_sub_cancel_left]
  field_simp

theorem frame_step (draws : Nat → Cell) (fuel : Nat) (d rest : ℚ) (g : Game)
    (hplay : g.state = GameState.playing) (hr : g.Running)
    (hd : 0 ≤ d ∧ d ≤ 100) (hrest : 0 ≤ rest)
    (hfuel : ⌊(g.accumulator + d + rest) / g.moveInterval⌋₊ ≤ fuel) :
    ∃ g1 k1, Game.loop draws fuel (g.lastUpdate + d) g = some g1 ∧
      Game.loopTicks draws fuel (g.lastUpdate + d) g = some k1 ∧
      g1.Running ∧ g1.accumulator < g1.moveInterval ∧ g1.moveInterval = g.moveInterval ∧
      k1 ≤ ⌊(g.accumulator + d + rest) / g.moveInterval⌋₊ ∧
      ⌊(g1.accumulator + rest) / g.moveInterval⌋₊ =
        ⌊(g.accumulator + d + rest) / g.moveInterval⌋₊ - k1 ∧
      g1.accumulator + rest -
          ((⌊(g.accumulator + d + rest) / g.moveInterval⌋₊ - k1 : ℕ) : ℚ) * g.moveInterval =
        g.accumulator + d + rest -
          (⌊(g.accumulator + d + rest) / g.moveInterval⌋₊ : ℚ) * g.moveInterval := by
  have hmi := hr.1
  have hdelta := frame_delta g.lastUpdate d hd.2
  have hmono : ⌊(g.accumulator + d) / g.moveInterval⌋₊ ≤
      ⌊(g.accumulator + d + rest) / g.moveInterval⌋₊ := by
    apply Nat.floor_mono
    apply div_le_div_of_nonneg_right _ (le_of_lt hmi)
    linarith
  obtain ⟨g1, h1, h2, h3, h4, h5, _⟩ := loop_spec draws fuel (g.lastUpdate + d) g hplay hr
    (by rw [hdelta]; exact le_trans hmono hfuel)
  rw [hdelta] at h2 h3
  have hlt : g1.accumulator < g1.moveInterval := by
    rw [h3, h4]
    have := Nat.lt_floor_add_one ((g.accumulator + d) / g.moveInterval)
    rw [div_lt_iff₀ hmi] at this
    linarith
  have hsub : (g1.accumulator + rest) / g.moveInterval =
      (g.accumulator + d + rest) / g.moveInterval -
        (⌊(g.accumulator + d) / g.moveInterval⌋₊ : ℚ) := by
    rw [h3]
    field_simp
    ring
  refine ⟨g1, _, h1, h2, h5, hlt, h4, hmono, ?_, ?_⟩
  · rw [hsub, Nat.floor_sub_nat]
  · rw [Nat.cast_sub hmono, h3]
    ring

theorem runFrames_spec (draws : Nat → Cell) (fuel : Nat) :
    ∀ (ds : List ℚ) (g : Game), g.Running → g.accumulator < g.moveInterval →
      (∀ d ∈ ds, 0 ≤ d ∧ d ≤ 100) →
      ⌊(g.accumulator + ds.sum) / g.moveInterval⌋₊ ≤ fuel →
      Game.FramesPlaying draws fuel ds g →
      ∃ g1, Game.runFrames draws fuel ds g =
          some (g1, ⌊(g.accumulator + ds.sum) / g.moveInterval⌋₊) ∧
        g1.accumulator = g.accumulator + ds.sum -
          (⌊(g.accumulator + ds.sum) / g.moveInterval⌋₊ : ℚ) * g.moveInterval := by
  intro ds
  induction ds with
  | nil =>
    intro g hr hacc _ _ _
    have hz : ⌊(g.accumulator + ([] : List ℚ).sum) / g.moveInterval⌋₊ = 0 := by
      rw [List.sum_nil, add_zero, Nat.floor_eq_zero, div_lt_one hr.1]
      exact hacc
    refine ⟨g, by rw [hz]; rfl, ?_⟩
    rw [hz]
    simp
  | cons d ds ih =>
    intro g hr _ hds hfuel hplay
    have hd := hds d (List.mem_cons_self _ _)
    have hds2 : ∀ d2 ∈ ds, 0 ≤ d2 ∧ d2 ≤ 100 := fun d2 h2 => hds d2 (List.mem_cons_of_mem _ h2)
    have hrest : 0 ≤ ds.sum := List.sum_nonneg (fun d2 h2 => (hds2 d2 h2).1)
    have hsum : g.accumulator + (d :: ds).sum = g.accumulator + d + ds.sum := by
      rw [List.sum_cons]; ring
    rw [hsum] at hfuel ⊢
    obtain ⟨g1, k1, h1, h2, h3, h4, h5, h6, h7, h8⟩ :=
      frame_step draws fuel d ds.sum g hplay.1 hr hd hrest hfuel
    obtain ⟨g2, e1, e2⟩ := ih g1 h3 h4 hds2 (by rw [h5, h7]; omega) (hplay.2 g1 h1)
    rw [h5, h7] at e1 e2
    refine ⟨g2, ?_, ?_⟩
    · simp only [Game.runFrames, h1, h2, e1, Option.map_some']
      congr 2
      omega
    · rw [e2, h8]

theorem runFrames_first (draws : Nat → Cell) (fuel : Nat) (d : ℚ) (ds : List ℚ) (g : Game)
    (hr : g.Running) (hds : ∀ d2 ∈ d :: ds, 0 ≤ d2 ∧ d2 ≤ 100)
    (hfuel : ⌊(g.accumulator + (d :: ds).sum) / g.moveInterval⌋₊ ≤ fuel)
    (hplay : Game.FramesPlaying draws fuel (d :: ds) g) :
    ∃ g1, Game.runFrames draws fuel (d :: ds) g =
        some (g1, ⌊(g.accumulator + (d :: ds).sum) / g.moveInterval⌋₊) ∧
      g1.accumulator = g.accumulator + (d :: ds).sum -
        (⌊(g.accumulator + (d :: ds).sum) / g.moveInterval⌋₊ : ℚ) * g.moveInterval := by
  have hd := hds d (List.mem_cons_self _ _)
  have hds2 : ∀ d2 ∈ ds, 0 ≤ d2 ∧ d2 ≤ 100 := fun d2 h2 => hds d2 (List.mem_cons_of_mem _ h2)
  have hrest : 0 ≤ ds.sum := List.sum_nonneg (fun d2 h2 => (hds2 d2 h2).1)
  have hsum : g.accumulator + (d :: ds).sum = g.accumulator + d + ds.sum := by
    rw [List.sum_cons]; ring
  rw [hsum] at hfuel ⊢
  obtain ⟨g1, k1, h1, h2, h3, h4, h5, h6, h7, h8⟩ :=
    frame_step draws fuel d ds.sum g hplay.1 hr hd hrest hfuel
  obtain ⟨g2, e1, e2⟩ := runFrames_spec draws fuel ds g1 h3 h4 hds2 (by rw [h5, h7]; omega)
    (hplay.2 g1 h1)
  rw [h5, h7] at e1 e2
  refine ⟨g2, ?_, ?_⟩
  · simp only [Game.runFrames, h1, h2, e1, Option.map_some']
    congr 2
    omega
  · rw [e2, h8]

/-- C14: in a round under way (`moveInterval > 0`, exact arithmetic) whose
frames all start in the playing state, one frame of delta `d1 + d2` performs as
many ticks and leaves the same accumulator as two frames of deltas `d1` and
`d2` (`d1, d2 ≥ 0`, `d1 + d2 ≤ 100` ms); and from accumulator 0, frames of
deltas `ds` (each in `[0, 100]` ms) perform `⌊ds.sum / moveInterval⌋` ticks in
total.  Both hold for every fuel at least the number of ticks. -/
theorem frames_tick_count (draws : Nat → Cell) (g : Game) (hr : g.Running) :
    (∀ (d1 d2 : ℚ) (fuel : Nat), 0 ≤ d1 → 0 ≤ d2 → d1 + d2 ≤ 100 →
      ⌊(g.accumulator + (d1 + d2)) / g.moveInterval⌋₊ ≤ fuel →
      Game.FramesPlaying draws fuel [d1, d2] g →
      ∃ gA gB n, Game.runFrames draws fuel [d1 + d2] g = some (gA, n) ∧
        Game.runFrames draws fuel [d1, d2] g = some (gB, n) ∧
        gA.accumulator = gB.accumulator) ∧
    (∀ (ds : List ℚ) (fuel : Nat), g.accumulator = 0 → (∀ d ∈ ds, 0 ≤ d ∧ d ≤ 100) →
      ⌊ds.sum / g.moveInterval⌋₊ ≤ fuel →
      Game.FramesPlaying draws fuel ds g →
      ∃ g1, Game.runFrames draws fuel ds g = some (g1, ⌊ds.sum / g.moveInterval⌋₊)) := by
  constructor
  · intro d1 d2 fuel h1 h2 h12 hfuel hplay
    have hA : g.accumulator + [d1 + d2].sum = g.accumulator + (d1 + d2) := by simp
    have hB : g.accumulator + [d1, d2].sum = g.accumulator + (d1 + d2) := by simp
    obtain ⟨gA, a1, a2⟩ := runFrames_first draws fuel (d1 + d2) [] g hr
      (by intro d hd
          rw [List.mem_singleton] at hd
          subst hd
          exact ⟨by linarith, h12⟩)
      (by rw [hA]; exact hfuel)
      ⟨hplay.1, fun _ _ => trivial⟩
    obtain ⟨gB, b1, b2⟩ := runFrames_first draws fuel d1 [d2] g hr
      (by intro d hd
          simp only [List.mem_cons, List.mem_singleton, List.not_mem_nil, or_false] at hd
          rcases hd with hd | hd
          · subst hd; exact ⟨h1, by linarith⟩
          · subst hd; exact ⟨h2, by linarith⟩)
      (by rw [hB]; exact hfuel)
      hplay
    rw [hA] at a1 a2
    rw [hB] at b1 b2
    exact ⟨gA, gB, _, a1, b1, by rw [a2, b2]⟩
  · intro ds fuel hacc hds hfuel hplay
    obtain ⟨g1, e1, _⟩ := runFrames_spec draws fuel ds g hr (by rw [hacc]; exact hr.1) hds
      (by rw [hacc, zero_add]; exact hfuel) hplay
    rw [hacc, zero_add] at e1
    exact ⟨g1, e1⟩

/-- Witness for C14: two frames of 30 ms on `curledGame` (move interval 45 ms)
perform `⌊60 / 45⌋ = 1` tick in total. -/
theorem frames_tick_count_witness :
    ∃ g1, Game.runFrames (fun _ => ⟨1, 1⟩) 1 [30, 30] curledGame = some (g1, 1) := by
  have hfl : ⌊([30, 30] : List ℚ).sum / curledGame.moveInterval⌋₊ = 1 := by
    have h60 : ([30, 30] : List ℚ).sum / curledGame.moveInterval = 4 / 3 := by
      norm_num [curledGame]
    rw [h60, Nat.floor_eq_iff (by norm_num)]
    norm_num
  have hstate : (Game.loop (fun _ => ⟨1, 1⟩) 1 (curledGame.lastUpdate + 30) curledGame).map
      (fun g => g.state) = some GameState.playing := by
    have h1 : min (((0 : ℚ) + 30 - 0) / 1000) 0.1 * 1000 = 30 := by norm_num
    simp only [Game.loop, curledGame, h1, zero_add]
    norm_num [Game.runTicks]
  have hplay : Game.FramesPlaying (fun _ => ⟨1, 1⟩) 1 [30, 30] curledGame := by
    refine ⟨rfl, fun g1 hg1 => ⟨?_, fun _ _ => trivial⟩⟩
    rw [hg1] at hstate
    simpa using hstate
  have h := (frames_tick_count (fun _ => ⟨1, 1⟩) curledGame
    ⟨by norm_num [curledGame], by decide, by decide⟩).2 [30, 30] 1 rfl
    (by intro d hd
        simp only [List.mem_cons, List.mem_singleton, List.not_mem_nil, or_false, or_self] at hd
        subst hd
        norm_num)
    (by rw [hfl]) hplay
  rw [hfl] at h
  exact h

/-! ## Snapshots -/

/-- C18: when the current snapshot is non-empty and has one point per snake
segment, the tick step (snapshot copy, tick, new snapshot, padding) completes
and leaves previous and current snapshots of the same length, the number of
segments; the previous snapshot is the pre-tick current snapshot followed by
copies of its last entry; and the display points computed afterwards are as
many as the current snapshot holds. -/
theorem tickStep_snapshots (draws : Nat → Cell) (g : Game) (hne : g.snapshotCurr ≠ [])
    (hlen : g.snapshotCurr.length = g.snake.segments.length) :
    ∃ g2, g.tickStep draws = some g2 ∧
      g2.snapshotPrev.length = g2.snapshotCurr.length ∧
      g2.snapshotCurr.length = g2.snake.segments.length ∧
      (∃ k last, g.snapshotCurr.getLast? = some last ∧
        g2.snapshotPrev = g.snapshotCurr ++ List.replicate k last) ∧
      ∀ t, (computeDisplayPoints g2.snapshotPrev g2.snapshotCurr t g2.cellSize).length =
        g2.snapshotCurr.length := by
  have hseg : g.snake.segments ≠ [] := by
    intro h0
    rw [h0] at hlen
    exact hne (List.eq_nil_of_length_eq_zero hlen)
  obtain ⟨g2, hg2⟩ := tickStep_isSome draws g hseg hne
  obtain ⟨_, _, _, _, _, _, _, h8, ⟨s1, hs1, hsegs, _⟩, hpad⟩ := tickStep_fields draws g g2 hg2
  have hcurr : g2.snapshotCurr.length = g2.snake.segments.length := by
    rw [h8]; simp [Game.takeSnapshot]
  obtain ⟨last, hlast⟩ : ∃ last, g.snapshotCurr.getLast? = some last := by
    cases hq : g.snapshotCurr.getLast? with
    | none => exact absurd (List.getLast?_eq_none_iff.mp hq) hne
    | some last => exact ⟨last, rfl⟩
  rw [padSnapshot_spec _ _ _ _ hlast] at hpad
  have hprev := (Option.some.inj hpad).symm
  have hgrow := (segments_after_update _ _ _ hs1).2
  refine ⟨g2, hg2, ?_, hcurr, ⟨_, last, hlast, hprev⟩, fun t => length_computeDisplayPoints _ _ _ _⟩
  rw [hprev, List.length_append, List.length_replicate, hcurr, hsegs, hlen]
  omega

/-- Witness for C18: the tick step on `curledGame`. -/
theorem tickStep_snapshots_witness :
    ∃ g2, curledGame.tickStep (fun _ => ⟨1, 1⟩) = some g2 ∧
      g2.snapshotPrev.length = g2.snapshotCurr.length ∧
      g2.snapshotCurr.length = g2.snake.segments.length := by
  obtain ⟨g2, h1, h2, h3, _⟩ := tickStep_snapshots (fun _ => ⟨1, 1⟩) curledGame
    (by decide) (by decide)
  exact ⟨g2, h1, h2, h3⟩

/-! ## Wrap-around -/

theorem easeInOutQuad_range (t : ℚ) (h0 : 0 ≤ t) (h1 : t ≤ 1) :
    0 ≤ easeInOutQuad t ∧ easeInOutQuad t ≤ 1 := by
  unfold easeInOutQuad
  split
  · rename_i h
    norm_num at h
    constructor
    · nlinarith [mul_nonneg h0 h0]
    · nlinarith
  · rename_i h
    norm_num at h
    constructor
    · nlinarith
    · nlinarith [mul_nonneg (sub_nonneg.mpr h1) (sub_nonneg.mpr h1)]

theorem displayPoint_snap (prev : List Point) (e m : ℚ) (i : Nat) (p q : Point)
    (hp : prev[i]? = some p) (h : m < |q.x - p.x| ∨ m < |q.y - p.y|) :
    displayPoint prev e m i q = q := by
  have hi : i < prev.length := by
    by_contra hc
    rw [List.getElem?_eq_none (not_lt.mp hc)] at hp
    cases hp
  have hget : prev.getD i q = p := by
    rw [List.getD_eq_getElem?_getD, hp]
    rfl
  simp only [displayPoint, hi, if_true, hget]
  rw [if_pos (by simpa using h)]

theorem displayPoint_blend (prev : List Point) (e m : ℚ) (i : Nat) (p q : Point)
    (hp : prev[i]? = some p) (hx : |q.x - p.x| ≤ m) (hy : |q.y - p.y| ≤ m) :
    displayPoint prev e m i q =
      { x := p.x + (q.x - p.x) * e, y := p.y + (q.y - p.y) * e } := by
  have hi : i < prev.length := by
    by_contra hc
    rw [List.getElem?_eq_none (not_lt.mp hc)] at hp
    cases hp
  have hget : prev.getD i q = p := by
    rw [List.getD_eq_getElem?_getD, hp]
    rfl
  simp only [displayPoint, hi, if_true, hget]
  rw [if_neg]
  simp only [gt_iff_lt, not_or, not_lt]
  exact ⟨hx, hy⟩

theorem splitStep_first (m : ℚ) (chunks : List (List Point)) (pt : Point) :
    splitStep m (chunks, []) pt = (chunks, [pt]) := by
  simp [splitStep]

theorem splitStep_far (m : ℚ) (chunks : List (List Point)) (current : List Point)
    (prev pt : Point) (hlast : current.getLast? = some prev) (h : m * m < sqDist prev pt) :
    splitStep m (chunks, current) pt = (chunks ++ [current], [pt]) := by
  simp only [splitStep, hlast]
  rw [if_pos]
  exact h

theorem splitStep_near (m : ℚ) (chunks : List (List Point)) (current : List Point)
    (prev pt : Point) (hlast : current.getLast? = some prev) (h : sqDist prev pt ≤ m * m) :
    splitStep m (chunks, current) pt = (chunks, current ++ [pt]) := by
  simp only [splitStep, hlast]
  rw [if_neg]
  exact not_lt.mpr h

theorem split_head_apart (cs : ℚ) (q0 q1 q2 q3 q4 : Point)
    (hfar : cs * 1.8 * (cs * 1.8) < sqDist q0 q1)
    (h12 : sqDist q1 q2 ≤ cs * 1.8 * (cs * 1.8))
    (h23 : sqDist q2 q3 ≤ cs * 1.8 * (cs * 1.8))
    (h34 : sqDist q3 q4 ≤ cs * 1.8 * (cs * 1.8)) :
    splitIntoContinuousChunks cs [q0, q1, q2, q3, q4] = [[q0], [q1, q2, q3, q4]] := by
  have s1 := splitStep_first (cs * 1.8) [] q0
  have s2 := splitStep_far (cs * 1.8) [] [q0] q0 q1 rfl hfar
  have s3 := splitStep_near (cs * 1.8) [[q0]] [q1] q1 q2 rfl h12
  have s4 := splitStep_near (cs * 1.8) [[q0]] [q1, q2] q2 q3 rfl h23
  have s5 := splitStep_near (cs * 1.8) [[q0]] [q1, q2, q3] q3 q4 rfl h34
  simp only [List.nil_append, List.cons_append] at s2 s3 s4 s5
  simp only [splitIntoContinuousChunks, List.foldl_cons, List.foldl_nil, s1, s2, s3, s4, s5]
  simp

theorem wrap_distances (cs ox oy e : ℚ) (hcs : 0 < cs) (he : 0 ≤ e) :
    cs * 1.8 * (cs * 1.8) <
      sqDist ⟨ox + 0 * cs + cs / 2, oy⟩ ⟨ox + 18 * cs + cs / 2 + cs * e, oy⟩ ∧
    ∀ a : ℚ, sqDist ⟨ox + (a + 1) * cs + cs / 2 + cs * e, oy⟩
      ⟨ox + a * cs + cs / 2 + cs * e, oy⟩ ≤ cs * 1.8 * (cs * 1.8) := by
  have hce : 0 ≤ cs * e := mul_nonneg (le_of_lt hcs) he
  constructor
  · simp only [sqDist]
    have h1 : ox + 18 * cs + cs / 2 + cs * e - (ox + 0 * cs + cs / 2) = 18 * cs + cs * e := by
      ring
    rw [h1]
    nlinarith [mul_pos hcs hcs, mul_nonneg hce hce, mul_nonneg (le_of_lt hcs) hce]
  · intro a
    simp only [sqDist]
    have h1 : ox + a * cs + cs / 2 + cs * e - (ox + (a + 1) * cs + cs / 2 + cs * e) = -cs := by
      ring
    rw [h1]
    nlinarith [mul_pos hcs hcs]

theorem wrap_display (cs ox oy t : ℚ) (hcs : 0 < cs) :
    computeDisplayPoints
      [⟨ox + 19 * cs + cs / 2, oy⟩, ⟨ox + 18 * cs + cs / 2, oy⟩, ⟨ox + 17 * cs + cs / 2, oy⟩,
        ⟨ox + 16 * cs + cs / 2, oy⟩, ⟨ox + 15 * cs + cs / 2, oy⟩]
      [⟨ox + 0 * cs + cs / 2, oy⟩, ⟨ox + 19 * cs + cs / 2, oy⟩, ⟨ox + 18 * cs + cs / 2, oy⟩,
        ⟨ox + 17 * cs + cs / 2, oy⟩, ⟨ox + 16 * cs + cs / 2, oy⟩] t cs =
      [⟨ox + 0 * cs + cs / 2, oy⟩,
        ⟨ox + 18 * cs + cs / 2 + cs * easeInOutQuad t, oy⟩,
        ⟨ox + 17 * cs + cs / 2 + cs * easeInOutQuad t, oy⟩,
        ⟨ox + 16 * cs + cs / 2 + cs * easeInOutQuad t, oy⟩,
        ⟨ox + 15 * cs + cs / 2 + cs * easeInOutQuad t, oy⟩] := by
  have hy : |oy - oy| ≤ cs * 2 := by
    rw [sub_self, abs_zero]
    linarith
  have key : ∀ (prev : List Point) (i : Nat) (a : ℚ),
      prev[i]? = some ⟨ox + a * cs + cs / 2, oy⟩ →
      displayPoint prev (easeInOutQuad t) (cs * 2) i ⟨ox + (a + 1) * cs + cs / 2, oy⟩ =
        ⟨ox + a * cs + cs / 2 + cs * easeInOutQuad t, oy⟩ := by
    intro prev i a hp
    have hx : |ox + (a + 1) * cs + cs / 2 - (ox + a * cs + cs / 2)| ≤ cs * 2 := by
      have h1 : ox + (a + 1) * cs + cs / 2 - (ox + a * cs + cs / 2) = cs := by ring
      rw [h1, abs_of_pos hcs]
      linarith
    rw [displayPoint_blend prev _ _ i ⟨ox + a * cs + cs / 2, oy⟩ ⟨ox + (a + 1) * cs + cs / 2, oy⟩
      hp hx hy]
    simp only [Point.mk.injEq]
    constructor <;> ring
  have e0 : ∀ prev : List Point, prev[0]? = some ⟨ox + 19 * cs + cs / 2, oy⟩ →
      displayPoint prev (easeInOutQuad t) (cs * 2) 0 ⟨ox + 0 * cs + cs / 2, oy⟩ =
        ⟨ox + 0 * cs + cs / 2, oy⟩ := by
    intro prev hp
    exact displayPoint_snap prev _ _ 0 ⟨ox + 19 * cs + cs / 2, oy⟩ ⟨ox + 0 * cs + cs / 2, oy⟩ hp
      (Or.inl (lt_abs.mpr (Or.inr (by simp only; linarith))))
  have k18 := key [⟨ox + 19 * cs + cs / 2, oy⟩, ⟨ox + 18 * cs + cs / 2, oy⟩,
    ⟨ox + 17 * cs + cs / 2, oy⟩, ⟨ox + 16 * cs + cs / 2, oy⟩, ⟨ox + 15 * cs + cs / 2, oy⟩] 1 18 rfl
  have k17 := key [⟨ox + 19 * cs + cs / 2, oy⟩, ⟨ox + 18 * cs + cs / 2, oy⟩,
    ⟨ox + 17 * cs + cs / 2, oy⟩, ⟨ox + 16 * cs + cs / 2, oy⟩, ⟨ox + 15 * cs + cs / 2, oy⟩] 2 17 rfl
  have k16 := key [⟨ox + 19 * cs + cs / 2, oy⟩, ⟨ox + 18 * cs + cs / 2, oy⟩,
    ⟨ox + 17 * cs + cs / 2, oy⟩, ⟨ox + 16 * cs + cs / 2, oy⟩, ⟨ox + 15 * cs + cs / 2, oy⟩] 3 16 rfl
  have k15 := key [⟨ox + 19 * cs + cs / 2, oy⟩, ⟨ox + 18 * cs + cs / 2, oy⟩,
    ⟨ox + 17 * cs + cs / 2, oy⟩, ⟨ox + 16 * cs + cs / 2, oy⟩, ⟨ox + 15 * cs + cs / 2, oy⟩] 4 15 rfl
  have k0 := e0 [⟨ox + 19 * cs + cs / 2, oy⟩, ⟨ox + 18 * cs + cs / 2, oy⟩,
    ⟨ox + 17 * cs + cs / 2, oy⟩, ⟨ox + 16 * cs + cs / 2, oy⟩, ⟨ox + 15 * cs + cs / 2, oy⟩] rfl
  norm_num at k18 k17 k16 k15
  simp only [computeDisplayPoints, List.enum, List.enumFrom, List.map, Nat.zero_add,
    Nat.reduceAdd, k0, k18, k17, k16, k15]

theorem cellCenter_row5 (grid : Grid) (k : Int) :
    grid.cellCenter k 5 =
      ⟨grid.offset.x + k * grid.cellSize + grid.cellSize / 2,
        grid.offset.y + 5 * grid.cellSize + grid.cellSize / 2⟩ := by
  simp [Grid.cellCenter]

/-- C15: with walls disabled, cell size `cellSize > 0` (the grid's cell size) and
the straight snake `wrapSnake`, head at `(19, 5)` heading `(1, 0)` on the
20-cell grid, one tick step moves the head to `(0, 5)`; then for every
interpolation progress in `[0, 1]` the head display point is the centre of cell
`(0, 5)` and `splitIntoContinuousChunks` returns exactly two chunks: the head
point alone, then the other four points. -/
theorem wrap_chunks (draws : Nat → Cell) (g : Game) (hwalls : g.walls = false)
    (hsnake : g.snake = wrapSnake) (hcs : 0 < g.cellSize) (hgrid : g.grid.cellSize = g.cellSize)
    (hsnap : g.snapshotCurr = g.takeSnapshot) :
    ∃ g2, g.tickStep draws = some g2 ∧
      g2.snake.segments = [⟨0, 5⟩, ⟨19, 5⟩, ⟨18, 5⟩, ⟨17, 5⟩, ⟨16, 5⟩] ∧
      ∀ t, 0 ≤ t → t ≤ 1 →
        ∃ p1 p2 p3 p4,
          computeDisplayPoints g2.snapshotPrev g2.snapshotCurr t g2.cellSize =
            [g.grid.cellCenter 0 5, p1, p2, p3, p4] ∧
          splitIntoContinuousChunks g2.cellSize [g.grid.cellCenter 0 5, p1, p2, p3, p4] =
            [[g.grid.cellCenter 0 5], [p1, p2, p3, p4]] := by
  have hseg : g.snake.segments ≠ [] := by rw [hsnake]; decide
  have hprev0 : g.snapshotCurr =
      [g.grid.cellCenter 19 5, g.grid.cellCenter 18 5, g.grid.cellCenter 17 5,
        g.grid.cellCenter 16 5, g.grid.cellCenter 15 5] := by
    rw [hsnap]
    simp [Game.takeSnapshot, hsnake, wrapSnake]
  have hsnapne : g.snapshotCurr ≠ [] := by rw [hprev0]; simp
  obtain ⟨g2, hg2⟩ := tickStep_isSome draws g hseg hsnapne
  obtain ⟨_, _, h3, h4, _, _, _, h8, ⟨s1, hs1, hsegs, _⟩, hpad⟩ := tickStep_fields draws g g2 hg2
  rw [hsnake, hwalls] at hs1
  have hu : (wrapSnake.update false).map (fun s => s.segments) =
      some [⟨0, 5⟩, ⟨19, 5⟩, ⟨18, 5⟩, ⟨17, 5⟩, ⟨16, 5⟩] := by decide
  rw [hs1, Option.map_some', Option.some.injEq] at hu
  rw [hu] at hsegs
  have hcurr : g2.snapshotCurr =
      [g.grid.cellCenter 0 5, g.grid.cellCenter 19 5, g.grid.cellCenter 18 5,
        g.grid.cellCenter 17 5, g.grid.cellCenter 16 5] := by
    rw [h8]
    simp [Game.takeSnapshot, hsegs, h4]
  have hprev : g2.snapshotPrev = g.snapshotCurr := by
    rw [hcurr, hprev0] at hpad
    simp only [List.length_cons, List.length_nil, Nat.sub_self, padSnapshot,
      Option.some.injEq] at hpad
    rw [hprev0]
    exact hpad.symm
  refine ⟨g2, hg2, hsegs, fun t h0 h1 => ?_⟩
  obtain ⟨he0, _⟩ := easeInOutQuad_range t h0 h1
  have hd := wrap_display g.cellSize g.grid.offset.x
    (g.grid.offset.y + 5 * g.cellSize + g.cellSize / 2) t hcs
  obtain ⟨hfar, hnear⟩ := wrap_distances g.cellSize g.grid.offset.x
    (g.grid.offset.y + 5 * g.cellSize + g.cellSize / 2) (easeInOutQuad t) hcs he0
  have h17 := hnear 17
  have h16 := hnear 16
  have h15 := hnear 15
  norm_num at h17 h16 h15
  have hsplit := split_head_apart g.cellSize _ _ _ _ _ hfar
    (by norm_num; exact h17) (by norm_num; exact h16) (by norm_num; exact h15)
  rw [hprev, hprev0, hcurr, h3]
  simp only [cellCenter_row5, hgrid]
  push_cast
  exact ⟨_, _, _, _, hd, hsplit⟩


/-- Witness for C15: `wrapGame` (cell size 20) at progress `1/2`. -/
theorem wrap_chunks_witness :
    ∃ g2, wrapGame.tickStep (fun _ => ⟨1, 1⟩) = some g2 ∧
      ∃ p1 p2 p3 p4,
        computeDisplayPoints g2.snapshotPrev g2.snapshotCurr (1 / 2) g2.cellSize =
          [wrapGame.grid.cellCenter 0 5, p1, p2, p3, p4] ∧
        splitIntoContinuousChunks g2.cellSize [wrapGame.grid.cellCenter 0 5, p1, p2, p3, p4] =
          [[wrapGame.grid.cellCenter 0 5], [p1, p2, p3, p4]] := by
  have hsnap : wrapGame.snapshotCurr = wrapGame.takeSnapshot := by
    simp only [wrapGame, curledGame, Game.takeSnapshot, wrapSnake, Grid.cellCenter, List.map]
    norm_num
  obtain ⟨g2, h1, _, h3⟩ := wrap_chunks (fun _ => ⟨1, 1⟩) wrapGame rfl rfl
    (by norm_num [wrapGame, curledGame]) rfl hsnap
  exact ⟨g2, h1, h3 (1 / 2) (by norm_num) (by norm_num)⟩

/-! ## Pause and resume -/

/-- C17: outside the playing state `pause()` changes nothing, neither in the
game nor in the document; outside the paused state `resume()` changes
nothing; hence calling `pause()` twice is the same as calling it once, and so
for `resume()` (whatever `performance.now()` returns at the two calls). -/
theorem pause_resume_idempotent (g : Game) (dom : Dom) (now now2 : ℚ) :
    (g.state ≠ GameState.playing → g.pause dom = (g, dom)) ∧
    (g.state ≠ GameState.paused → g.resume now dom = (g, dom)) ∧
    Game.pause (g.pause dom).1 (g.pause dom).2 = g.pause dom ∧
    Game.resume now2 (g.resume now dom).1 (g.resume now dom).2 = g.resume now dom := by
  refine ⟨?_, ?_, ?_, ?_⟩
  · intro h
    simp [Game.pause, h]
  · intro h
    simp [Game.resume, h]
  · by_cases h : g.state = GameState.playing
    · simp [Game.pause, h]
    · simp [Game.pause, h]
  · by_cases h : g.state = GameState.paused
    · simp [Game.resume, h]
    · simp [Game.resume, h]

/-- Witness for C17: `pause()` on a game already paused, `resume()` on a game that
is playing. -/
theorem pause_resume_idempotent_witness :
    Game.pause { curledGame with state := GameState.paused } ⟨some false, some true, some false⟩ =
      ({ curledGame with state := GameState.paused }, ⟨some false, some true, some false⟩) ∧
    Game.resume 5 curledGame ⟨some true, some false, some true⟩ =
      (curledGame, ⟨some true, some false, some true⟩) := by
  constructor
  · exact (pause_resume_idempotent { curledGame with state := GameState.paused }
      ⟨some false, some true, some false⟩ 0 0).1 (by decide)
  · exact (pause_resume_idempotent curledGame ⟨some true, some false, some true⟩ 5 0).2.1
      (by decide)

/-! ## Reachable snake states -/

theorem chain_concat {α : Type} (R : α → α → Prop) :
    ∀ (l : List α) (a d : α),
      List.Chain R a (l ++ [d]) ↔ List.Chain R a l ∧ R (l.getLast?.getD a) d := by
  intro l
  induction l with
  | nil => intro a d; simp
  | cons x l ih =>
    intro a d
    rw [List.cons_append, List.chain_cons, ih, List.chain_cons]
    have h : (x :: l).getLast?.getD a = l.getLast?.getD x := by
      rw [List.getLast?_cons]
      rfl
    rw [h, and_assoc]

theorem queueDirection_cases (s : Snake) (d : Cell) :
    s.queueDirection d = s ∨
    (d ≠ s.directionQueue.getLast?.getD s.direction ∧
      d ≠ (s.directionQueue.getLast?.getD s.direction).neg ∧
      s.queueDirection d = { s with directionQueue := s.directionQueue ++ [d] }) := by
  have hlast : (if s.directionQueue.length > 0 then s.directionQueue.getLast?.getD s.direction
      else s.direction) = s.directionQueue.getLast?.getD s.direction := by
    cases hq : s.directionQueue with
    | nil => simp
    | cons a l => simp
  simp only [Snake.queueDirection, hlast]
  split
  · exact Or.inl rfl
  · rename_i h1
    split
    · exact Or.inl rfl
    · rename_i h2
      split
      · refine Or.inr ⟨?_, ?_, rfl⟩
        · intro h; apply h2; rw [h]; exact ⟨rfl, rfl⟩
        · intro h; apply h1; rw [h]; exact ⟨rfl, rfl⟩
      · exact Or.inl rfl

theorem update_queue (s s1 : Snake) (walls : Bool) (h : s.update walls = some s1) :
    s1.direction = s.adoptQueued.direction ∧
    s1.directionQueue = s.adoptQueued.directionQueue ∧ s1.segments ≠ [] := by
  cases hseg : s.segments with
  | nil =>
    have hh : s.adoptQueued.head = none := by
      simp [Snake.head, adoptQueued_segments, hseg]
    simp [Snake.update, hh] at h
  | cons hd tl =>
    have hne := (segments_after_update s s1 walls h).1
    rw [update_of_cons s walls hd tl hseg] at h
    cases h
    exact ⟨rfl, rfl, hne⟩

theorem unit_perpendicular (a b : Cell) (ha : a.isUnitAxis) (hb : b.isUnitAxis)
    (h1 : b ≠ a) (h2 : b ≠ a.neg) : b.x * a.x + b.y * a.y = 0 := by
  rcases ha with rfl | rfl | rfl | rfl <;> rcases hb with rfl | rfl | rfl | rfl <;>
    first
      | rfl
      | exact absurd rfl h1
      | exact absurd rfl h2

theorem reachable_inv (gridSize : Int) (s : Snake) (h : Snake.Reachable gridSize s) :
    s.PerpChained ∧ s.direction.isUnitAxis ∧ (∀ d ∈ s.directionQueue, d.isUnitAxis) ∧
      s.segments ≠ [] := by
  induction h with
  | reset =>
    refine ⟨List.Chain.nil, Or.inl rfl, ?_, ?_⟩
    · intro d hd; simp [Snake.reset] at hd
    · simp [Snake.reset]
  | queueDirection s d _ hd ih =>
    obtain ⟨hc, hu, hq, hs⟩ := ih
    rcases queueDirection_cases s d with h | ⟨h1, h2, h⟩
    · rw [h]; exact ⟨hc, hu, hq, hs⟩
    · rw [h]
      refine ⟨?_, hu, ?_, hs⟩
      · exact (chain_concat _ _ _ _).mpr ⟨hc, h1, h2⟩
      · intro x hx
        rcases List.mem_append.mp hx with hx | hx
        · exact hq x hx
        · rw [List.mem_singleton.mp hx]; exact hd
  | update s s1 walls _ hup ih =>
    obtain ⟨hc, hu, hq, _⟩ := ih
    obtain ⟨e1, e2, e3⟩ := update_queue s s1 walls hup
    unfold Snake.PerpChained at hc ⊢
    rw [e1, e2]
    unfold Snake.adoptQueued
    cases hqq : s.directionQueue with
    | nil =>
      rw [hqq] at hc hq
      simp only
      rw [hqq]
      exact ⟨hc, hu, hq, e3⟩
    | cons next rest =>
      rw [hqq] at hc hq
      rw [List.chain_cons] at hc
      have hnot : ¬ (next.x = -s.direction.x ∧ next.y = -s.direction.y) := by
        intro hn
        apply hc.1.2
        cases next
        simp only [Cell.neg] at *
        simp [hn.1, hn.2]
      simp only [if_pos hnot]
      exact ⟨hc.2, hq next (List.mem_cons_self _ _),
        fun x hx => hq x (List.mem_cons_of_mem _ hx), e3⟩

theorem adoptQueued_cons (s : Snake) (next : Cell) (rest : List Cell)
    (hq : s.directionQueue = next :: rest) (hn : next ≠ s.direction.neg) :
    s.adoptQueued.direction = next ∧ s.adoptQueued.directionQueue = rest := by
  have hnot : ¬ (next.x = -s.direction.x ∧ next.y = -s.direction.y) := by
    intro h
    apply hn
    cases next
    simp only [Cell.neg] at *
    simp [h.1, h.2]
  unfold Snake.adoptQueued
  rw [hq]
  simp only [if_pos hnot, and_self]

/-- C19: in every snake state reachable from `reset()` by `queueDirection` calls
with unit axis vectors and `update` calls, the queue is perpendicular-chained
and the heading is a unit axis vector; hence an `update` on a non-empty queue
returns and adopts the oldest queued direction, and after any `update` the
heading is either unchanged or perpendicular to the heading before. -/
theorem reachable_perpChained (gridSize : Int) (s : Snake)
    (h : Snake.Reachable gridSize s) :
    s.PerpChained ∧ s.direction.isUnitAxis ∧
    (∀ (walls : Bool) (next : Cell) (rest : List Cell), s.directionQueue = next :: rest →
      ∃ s1, s.update walls = some s1 ∧ s1.direction = next ∧ s1.directionQueue = rest) ∧
    (∀ (walls : Bool) (s1 : Snake), s.update walls = some s1 →
      s1.direction = s.direction ∨
        s1.direction.x * s.direction.x + s1.direction.y * s.direction.y = 0) := by
  obtain ⟨hc, hu, hq, hs⟩ := reachable_inv gridSize s h
  refine ⟨hc, hu, ?_, ?_⟩
  · intro walls next rest hqq
    obtain ⟨hd, tl, hseg⟩ := List.exists_cons_of_ne_nil hs
    unfold Snake.PerpChained at hc
    rw [hqq, List.chain_cons] at hc
    obtain ⟨e1, e2⟩ := adoptQueued_cons s next rest hqq hc.1.2
    exact ⟨_, update_of_cons s walls hd tl hseg, e1, e2⟩
  · intro walls s1 hup
    obtain ⟨e1, _, _⟩ := update_queue s s1 walls hup
    cases hqq : s.directionQueue with
    | nil =>
      left
      rw [e1]
      unfold Snake.adoptQueued
      rw [hqq]
    | cons next rest =>
      right
      unfold Snake.PerpChained at hc
      rw [hqq, List.chain_cons] at hc
      obtain ⟨e2, _⟩ := adoptQueued_cons s next rest hqq hc.1.2
      rw [e1, e2]
      exact unit_perpendicular s.direction next hu
        (hq next (by rw [hqq]; exact List.mem_cons_self _ _)) hc.1.1 hc.1.2

/-- Witness for C19: after `reset()` and `queueDirection((0, -1))` the next
update turns the snake upwards. -/
theorem reachable_perpChained_witness :
    ∃ s1, ((Snake.reset 20).queueDirection ⟨0, -1⟩).update true = some s1 ∧
      s1.direction = ⟨0, -1⟩ ∧ s1.directionQueue = [] := by
  have h := reachable_perpChained 20 ((Snake.reset 20).queueDirection ⟨0, -1⟩)
    (Snake.Reachable.queueDirection _ _ Snake.Reachable.reset (by decide))
  exact h.2.2.1 true ⟨0, -1⟩ [] (by decide)

/-! ## Drawing the snake -/

theorem drawSnakeLoop_requests (sqrt : ℚ → ℚ) (cellSize : ℚ) (direction : Cell)
    (totalLen : Nat) :
    ∀ (chunks : List (List Point)) (k gOff : Nat) (r : DrawRequest),
      r ∈ drawSnakeLoop sqrt cellSize direction totalLen chunks k gOff →
      ∃ (i : Nat) (chunk : List Point), chunks[i]? = some chunk ∧ 2 ≤ chunk.length ∧
        (r = DrawRequest.body (buildSmoothPath sqrt cellSize chunk) (cellSize * 0.72 + 3)
              (cellSize * 0.15 + 1) totalLen (gOff + (chunks.take i).flatten.length)
              chunk.length true ∨
          r = DrawRequest.body (buildSmoothPath sqrt cellSize chunk) (cellSize * 0.72)
              (cellSize * 0.15) totalLen (gOff + (chunks.take i).flatten.length)
              chunk.length false ∨
          r = DrawRequest.shine (buildSmoothPath sqrt cellSize chunk) (cellSize * 0.72)
              (cellSize * 0.15) totalLen (gOff + (chunks.take i).flatten.length)
              chunk.length ∨
          (k + i = 0 ∧ ∃ p, (buildSmoothPath sqrt cellSize chunk).head? = some p ∧
            r = DrawRequest.head p direction cellSize)) := by
  intro chunks
  induction chunks with
  | nil => intro k gOff r hr; simp [drawSnakeLoop] at hr
  | cons chunk rest ih =>
    intro k gOff r hr
    have shift : (∃ (i : Nat) (ch : List Point), rest[i]? = some ch ∧ 2 ≤ ch.length ∧
        (r = DrawRequest.body (buildSmoothPath sqrt cellSize ch) (cellSize * 0.72 + 3)
              (cellSize * 0.15 + 1) totalLen
              (gOff + chunk.length + (rest.take i).flatten.length) ch.length true ∨
          r = DrawRequest.body (buildSmoothPath sqrt cellSize ch) (cellSize * 0.72)
              (cellSize * 0.15) totalLen
              (gOff + chunk.length + (rest.take i).flatten.length) ch.length false ∨
          r = DrawRequest.shine (buildSmoothPath sqrt cellSize ch) (cellSize * 0.72)
              (cellSize * 0.15) totalLen
              (gOff + chunk.length + (rest.take i).flatten.length) ch.length ∨
          (k + 1 + i = 0 ∧ ∃ p, (buildSmoothPath sqrt cellSize ch).head? = some p ∧
            r = DrawRequest.head p direction cellSize))) →
        ∃ (i : Nat) (ch : List Point), (chunk :: rest)[i]? = some ch ∧ 2 ≤ ch.length ∧
        (r = DrawRequest.body (buildSmoothPath sqrt cellSize ch) (cellSize * 0.72 + 3)
              (cellSize * 0.15 + 1) totalLen
              (gOff + ((chunk :: rest).take i).flatten.length) ch.length true ∨
          r = DrawRequest.body (buildSmoothPath sqrt cellSize ch) (cellSize * 0.72)
              (cellSize * 0.15) totalLen
              (gOff + ((chunk :: rest).take i).flatten.length) ch.length false ∨
          r = DrawRequest.shine (buildSmoothPath sqrt cellSize ch) (cellSize * 0.72)
              (cellSize * 0.15) totalLen
              (gOff + ((chunk :: rest).take i).flatten.length) ch.length ∨
          (k + i = 0 ∧ ∃ p, (buildSmoothPath sqrt cellSize ch).head? = some p ∧
            r = DrawRequest.head p direction cellSize)) := by
      rintro ⟨i, ch, h1, h2, h3⟩
      refine ⟨i + 1, ch, by simpa using h1, h2, ?_⟩
      have hoff : gOff + ((chunk :: rest).take (i + 1)).flatten.length =
          gOff + chunk.length + (rest.take i).flatten.length := by
        simp [Nat.add_assoc]
      rw [hoff]
      rcases h3 with h | h | h | ⟨h, _⟩
      · exact Or.inl h
      · exact Or.inr (Or.inl h)
      · exact Or.inr (Or.inr (Or.inl h))
      · omega
    simp only [drawSnakeLoop] at hr
    split at hr
    · exact shift (ih (k + 1) (gOff + chunk.length) r hr)
    · rename_i hlen
      simp only [List.mem_append, List.mem_cons, List.mem_singleton, List.not_mem_nil,
        or_false] at hr
      rcases hr with (hr | hr) | hr
      · refine ⟨0, chunk, by simp, by omega, ?_⟩
        simp only [List.take_zero, List.flatten_nil, List.length_nil, Nat.add_zero]
        rcases hr with hr | hr | hr
        · exact Or.inl hr
        · exact Or.inr (Or.inl hr)
        · exact Or.inr (Or.inr (Or.inl hr))
      · refine ⟨0, chunk, by simp, by omega, Or.inr (Or.inr (Or.inr ?_))⟩
        split at hr
        · rename_i hk
          simp only [List.mem_map, Option.mem_toList, Option.mem_def] at hr
          obtain ⟨p, hp, hpr⟩ := hr
          exact ⟨by omega, p, hp, hpr.symm⟩
        · simp at hr
      · exact shift (ih (k + 1) (gOff + chunk.length) r hr)

theorem drawSnake_example (sqrt : ℚ → ℚ) :
    splitIntoContinuousChunks 10 [⟨0, 0⟩, ⟨100, 0⟩, ⟨110, 0⟩] =
      [[⟨0, 0⟩], [⟨100, 0⟩, ⟨110, 0⟩]] ∧
    drawSnake sqrt 10 ⟨1, 0⟩ [⟨0, 0⟩, ⟨100, 0⟩, ⟨110, 0⟩] =
      [DrawRequest.body [⟨100, 0⟩, ⟨205 / 2, 0⟩, ⟨105, 0⟩, ⟨215 / 2, 0⟩, ⟨110, 0⟩]
          (51 / 5) (5 / 2) 3 1 2 true,
        DrawRequest.body [⟨100, 0⟩, ⟨205 / 2, 0⟩, ⟨105, 0⟩, ⟨215 / 2, 0⟩, ⟨110, 0⟩]
          (36 / 5) (3 / 2) 3 1 2 false,
        DrawRequest.shine [⟨100, 0⟩, ⟨205 / 2, 0⟩, ⟨105, 0⟩, ⟨215 / 2, 0⟩, ⟨110, 0⟩]
          (36 / 5) (3 / 2) 3 1 2] := by
  have hs : splitIntoContinuousChunks 10 [⟨0, 0⟩, ⟨100, 0⟩, ⟨110, 0⟩] =
      [[⟨0, 0⟩], [⟨100, 0⟩, ⟨110, 0⟩]] := by
    simp only [splitIntoContinuousChunks, splitStep, List.foldl_cons, List.foldl_nil]
    norm_num
  refine ⟨hs, ?_⟩
  simp only [drawSnake, hs, drawSnakeLoop, buildSmoothPath, subdivideLine]
  norm_num [List.range_succ]

/-- Counterexample for C16: with cell size 10 the display points
`(0,0), (100,0), (110,0)` split into the single-point chunk `[(0,0)]` and the
chunk `[(100,0), (110,0)]`; `drawSnake` issues the three ribbon requests of the
second chunk and no head-shape request at `(0,0)`. -/
theorem drawSnake_skips_single_point :
    [(⟨0, 0⟩ : Point)] ∈ splitIntoContinuousChunks 10 [⟨0, 0⟩, ⟨100, 0⟩, ⟨110, 0⟩] ∧
    DrawRequest.head ⟨0, 0⟩ ⟨1, 0⟩ 10 ∉
      drawSnake (fun v => v) 10 ⟨1, 0⟩ [⟨0, 0⟩, ⟨100, 0⟩, ⟨110, 0⟩] := by
  obtain ⟨h1, h2⟩ := drawSnake_example (fun v => v)
  rw [h1, h2]
  constructor
  · simp
  · simp

theorem head?_buildSmoothPath (sqrt : ℚ → ℚ) (cellSize : ℚ) (controlPoints : List Point)
    (h : 2 ≤ controlPoints.length) :
    (buildSmoothPath sqrt cellSize controlPoints).head? = controlPoints.head? := by
  match controlPoints, h with
  | [a, b], _ =>
    cases a; cases b
    simp [buildSmoothPath, subdivideLine, List.range_succ]
  | a :: b :: d :: rest, _ =>
    obtain ⟨last, hlast⟩ : ∃ last, (a :: b :: d :: rest).getLast? = some last := by
      cases h : (a :: b :: d :: rest).getLast? with
      | none => simp at h
      | some last => exact ⟨last, rfl⟩
    have hb : buildSmoothPath sqrt cellSize (a :: b :: d :: rest) =
        splineSpans sqrt cellSize ([a] ++ (a :: b :: d :: rest) ++ [last]) ++ [last] := by
      simp only [buildSmoothPath, hlast]
      simp
    have hl : [a] ++ (a :: b :: d :: rest) ++ [last] =
        a :: a :: b :: d :: (rest ++ [last]) := by simp
    rw [hb, hl, splineSpans_window, List.append_assoc, head?_splineSpan]
    rfl

theorem drawSnakeLoop_head (sqrt : ℚ → ℚ) (cellSize : ℚ) (direction : Cell) (totalLen : Nat)
    (chunk : List Point) (rest : List (List Point)) (gOff : Nat) (p : Point)
    (hlen : 2 ≤ chunk.length) (hp : chunk.head? = some p) :
    DrawRequest.head p direction cellSize ∈
      drawSnakeLoop sqrt cellSize direction totalLen (chunk :: rest) 0 gOff := by
  have hlt : ¬ chunk.length < 2 := by omega
  have hh := head?_buildSmoothPath sqrt cellSize chunk hlen
  rw [hp] at hh
  simp only [drawSnakeLoop, if_neg hlt, hh, if_true]
  simp

/-- C16 (amended): for a display sequence of two or more points, every request
`drawSnake` issues belongs to a chunk of at least two points: it is the
shadow, body or shine ribbon of such a chunk (with the number of points of the
earlier chunks as offset), or the head shape at the first smoothed point of the
first chunk, oriented along the snake's heading; so no ribbon is issued for a
chunk of exactly one point.  When the first chunk has at least two points the
head shape is requested, at the first point of that chunk. -/
theorem drawSnake_requests (sqrt : ℚ → ℚ) (cellSize : ℚ) (direction : Cell)
    (points : List Point) (hlen : 2 ≤ points.length) :
    (∀ r ∈ drawSnake sqrt cellSize direction points,
      ∃ (i : Nat) (chunk : List Point),
        (splitIntoContinuousChunks cellSize points)[i]? = some chunk ∧ 2 ≤ chunk.length ∧
        (r = DrawRequest.body (buildSmoothPath sqrt cellSize chunk) (cellSize * 0.72 + 3)
              (cellSize * 0.15 + 1) points.length
              ((splitIntoContinuousChunks cellSize points).take i).flatten.length
              chunk.length true ∨
          r = DrawRequest.body (buildSmoothPath sqrt cellSize chunk) (cellSize * 0.72)
              (cellSize * 0.15) points.length
              ((splitIntoContinuousChunks cellSize points).take i).flatten.length
              chunk.length false ∨
          r = DrawRequest.shine (buildSmoothPath sqrt cellSize chunk) (cellSize * 0.72)
              (cellSize * 0.15) points.length
              ((splitIntoContinuousChunks cellSize points).take i).flatten.length
              chunk.length ∨
          (i = 0 ∧ ∃ p, (buildSmoothPath sqrt cellSize chunk).head? = some p ∧
            r = DrawRequest.head p direction cellSize))) ∧
    (∀ (chunk : List Point) (rest : List (List Point)),
      splitIntoContinuousChunks cellSize points = chunk :: rest → 2 ≤ chunk.length →
      ∃ p, chunk.head? = some p ∧
        DrawRequest.head p direction cellSize ∈ drawSnake sqrt cellSize direction points) := by
  match points, hlen with
  | a :: b :: tl, _ =>
    constructor
    · intro r hr
      simp only [drawSnake] at hr
      obtain ⟨i, chunk, h1, h2, h3⟩ :=
        drawSnakeLoop_requests sqrt cellSize direction _ _ 0 0 r hr
      simp only [Nat.zero_add] at h3
      exact ⟨i, chunk, h1, h2, h3⟩
    · intro chunk rest hsplit hchunk
      obtain ⟨p, hp⟩ : ∃ p, chunk.head? = some p := by
        cases chunk with
        | nil => simp at hchunk
        | cons q _ => exact ⟨q, rfl⟩
      refine ⟨p, hp, ?_⟩
      simp only [drawSnake, hsplit]
      exact drawSnakeLoop_head sqrt cellSize direction _ chunk rest 0 p hchunk hp

/-- Witness for C16 (amended): the body request issued for the display points
`(0,0), (100,0), (110,0)` belongs to a chunk of two points. -/
theorem drawSnake_requests_witness :
    ∃ (i : Nat) (chunk : List Point),
      (splitIntoContinuousChunks 10 [⟨0, 0⟩, ⟨100, 0⟩, ⟨110, 0⟩])[i]? = some chunk ∧
      2 ≤ chunk.length := by
  obtain ⟨i, chunk, h1, h2, _⟩ := (drawSnake_requests (fun v => v) 10 ⟨1, 0⟩
    [⟨0, 0⟩, ⟨100, 0⟩, ⟨110, 0⟩] (by decide)).1
    (DrawRequest.body [⟨100, 0⟩, ⟨205 / 2, 0⟩, ⟨105, 0⟩, ⟨215 / 2, 0⟩, ⟨110, 0⟩]
      (36 / 5) (3 / 2) 3 1 2 false)
    (by rw [(drawSnake_example (fun v => v)).2]; simp)
  exact ⟨i, chunk, h1, h2⟩

theorem length_splineSpan (sqrt : ℚ → ℚ) (cellSize : ℚ) (p0 p1 p2 p3 : Point) :
    (splineSpan sqrt cellSize p0 p1 p2 p3).length = (spanSteps sqrt cellSize p1 p2).toNat := by
  unfold splineSpan
  dsimp only
  rw [List.length_map, List.length_range]

theorem length_buildSmoothPath_ge (sqrt : ℚ → ℚ) (cellSize : ℚ) (controlPoints : List Point)
    (h : 3 ≤ controlPoints.length) : 2 ≤ (buildSmoothPath sqrt cellSize controlPoints).length := by
  match controlPoints, h with
  | a :: b :: d :: rest, _ =>
    obtain ⟨last, hlast⟩ : ∃ last, (a :: b :: d :: rest).getLast? = some last := by
      cases h : (a :: b :: d :: rest).getLast? with
      | none => simp at h
      | some last => exact ⟨last, rfl⟩
    have hb : buildSmoothPath sqrt cellSize (a :: b :: d :: rest) =
        splineSpans sqrt cellSize ([a] ++ (a :: b :: d :: rest) ++ [last]) ++ [last] := by
      simp only [buildSmoothPath, hlast]
      simp
    have hl : [a] ++ (a :: b :: d :: rest) ++ [last] =
        a :: a :: b :: d :: (rest ++ [last]) := by simp
    have h3 := spanSteps_ge sqrt cellSize a b
    rw [hb, hl, splineSpans_window]
    rw [List.length_append, List.length_append, length_splineSpan, List.length_singleton]
    omega

theorem bodyGlobalT_last (len totalSegs gOff chunkSegs : Nat) (hlen : 2 ≤ len)
    (htot : 2 ≤ totalSegs) :
    bodyGlobalT len totalSegs gOff chunkSegs (len - 1) =
      ((gOff : ℚ) + chunkSegs) / ((totalSegs : ℚ) - 1) := by
  have h1 : (2 : ℚ) ≤ len := by exact_mod_cast hlen
  have h2 : (2 : ℚ) ≤ totalSegs := by exact_mod_cast htot
  have hc : ((len - 1 : ℕ) : ℚ) = (len : ℚ) - 1 := by
    rw [Nat.cast_sub (by omega)]
    simp
  simp only [bodyGlobalT, hc]
  rw [max_eq_left (by linarith), max_eq_left (by linarith), div_self (by linarith), one_mul]

/-- C20 (defect in the code): for the five display points of a straight snake
(cell size 20) `drawSnake` issues the body ribbon of the single chunk with
`totalSegs = 5`, `gOff = 0` and `chunkSegs = 5`; at the last index of the
smoothed polyline the position `computeBodyGeometry` passes to `widthAt` is
`(0 + 1 * 5) / (5 - 1) = 5/4`, above 1, whatever `Math.sqrt` returns. -/
theorem bodyGlobalT_exceeds_one (sqrt : ℚ → ℚ) :
    DrawRequest.body
        (buildSmoothPath sqrt 20 [⟨126, 126⟩, ⟨106, 126⟩, ⟨86, 126⟩, ⟨66, 126⟩, ⟨46, 126⟩])
        (20 * 0.72) (20 * 0.15) 5 0 5 false ∈
      drawSnake sqrt 20 ⟨-1, 0⟩ [⟨126, 126⟩, ⟨106, 126⟩, ⟨86, 126⟩, ⟨66, 126⟩, ⟨46, 126⟩] ∧
    bodyGlobalT
        (buildSmoothPath sqrt 20
          [⟨126, 126⟩, ⟨106, 126⟩, ⟨86, 126⟩, ⟨66, 126⟩, ⟨46, 126⟩]).length 5 0 5
        ((buildSmoothPath sqrt 20
          [⟨126, 126⟩, ⟨106, 126⟩, ⟨86, 126⟩, ⟨66, 126⟩, ⟨46, 126⟩]).length - 1) = 5 / 4 ∧
    (1 : ℚ) < 5 / 4 := by
  have hs : splitIntoContinuousChunks 20
      [⟨126, 126⟩, ⟨106, 126⟩, ⟨86, 126⟩, ⟨66, 126⟩, ⟨46, 126⟩] =
      [[⟨126, 126⟩, ⟨106, 126⟩, ⟨86, 126⟩, ⟨66, 126⟩, ⟨46, 126⟩]] := by
    simp only [splitIntoContinuousChunks, splitStep, List.foldl_cons, List.foldl_nil]
    norm_num
  refine ⟨?_, ?_, by norm_num⟩
  · simp only [drawSnake, hs, drawSnakeLoop]
    simp
  · rw [bodyGlobalT_last _ 5 0 5
      (length_buildSmoothPath_ge sqrt 20 _ (by decide)) (by decide)]
    norm_num

end SnakeGame
